import Mathlib

/-!
# s3-backup-restore: the backup pipeline of `internal/backup.go`

A shallow embedding of `Backup.Run` and the methods it calls, followed by
theorems about retention pruning, the failure policy of the run, the
remote key format, the tar entry names and the `BACKUP_DATE` marker.

Conventions of the embedding.

* A Go `string` is a Lean `String`.  Go compares strings bytewise; the
  embedding compares them as lists of code points (`strLess`).  On UTF-8
  text the two orders coincide, UTF-8 being order preserving.
* A Go `int` is an `Int`; a length is a `Nat`.
* An `error` is the `String` of its message; `nil` is `none`.
* Everything outside the process (clock, file system, object store) is a
  field of `World`: the result each external call gives in this run.
* A method returns the list of `Event`s it produced, in order, next to its
  Go result.  `Event.call f` marks the entry into method `f`.
* `Time.Format` follows package `time`: absolute seconds, `absDate`,
  `absClock` and `appendInt`, for the one layout the program uses.
-/

namespace S3Backup

/-! ## Go strings -/

/-- Go's `a < b` on strings. -/
def strLess (a b : String) : Prop := a.toList < b.toList

instance strLessDecidable (a b : String) : Decidable (strLess a b) :=
  inferInstanceAs (Decidable (a.toList < b.toList))

/-- The order `sort.Reverse(sort.StringSlice(keys))` sorts by: `a` may stand
before `b` when `a` is not less than `b`. -/
def revLE (a b : String) : Prop := b.toList ≤ a.toList

instance revLEDecidable (a b : String) : Decidable (revLE a b) :=
  inferInstanceAs (Decidable (b.toList ≤ a.toList))

/-- The slice after `sort.Sort(sort.Reverse(sort.StringSlice(keys)))`: the
keys in descending order.  The order on strings is total and equal strings
are identical, so the sorted slice does not depend on the sorting algorithm
(`sortReverse_unique`). -/
def sortReverse (keys : List String) : List String :=
  List.insertionSort revLE keys

/-- Whether `old` is a leading segment of `s` (`strings.HasPrefix`). -/
def hasLead : List Char → List Char → Bool
  | [], _ => true
  | _ :: _, [] => false
  | o :: os, c :: cs => o == c && hasLead os cs

/-- The body of `strings.Replace(s, old, new, -1)` for a non-empty `old`:
scanning from the left, each occurrence of `old` that does not overlap an
earlier one is replaced by `new`.  The first argument bounds the number of
steps; the length of `s` plus one is enough. -/
def replaceAllAux : Nat → List Char → List Char → List Char → List Char
  | 0, s, _, _ => s
  | _ + 1, [], _, _ => []
  | n + 1, c :: cs, old, new =>
    if hasLead old (c :: cs) then
      new ++ replaceAllAux n ((c :: cs).drop old.length) old new
    else
      c :: replaceAllAux n cs old new

/-- Go's `strings.ReplaceAll(s, old, new)`.  With an empty `old` Go inserts
`new` before every character and at the end. -/
def ReplaceAll (s old new : String) : String :=
  if old = new then s
  else if old.toList = [] then
    String.mk (new.toList ++ s.toList.flatMap (fun c => c :: new.toList))
  else
    String.mk (replaceAllAux (s.length + 1) s.toList old.toList new.toList)

/-! ## Package `time`: `time.Now().UTC().Format("2006-01-02T15:04:05Z")` -/

/-- An instant: seconds since the Unix epoch, which fit Go's `int64`, and
nanoseconds within the second. -/
structure Time where
  sec : Int
  nsec : Fin 1000000000
  int64 : -9223372036854775808 ≤ sec ∧ sec < 9223372036854775808 := by decide
  deriving DecidableEq

/-- The nanoseconds from the Unix epoch to the instant. -/
def Time.UnixNano (t : Time) : Int := t.sec * 1000000000 + t.nsec.val

def secondsPerDay : Nat := 86400
def daysPer400Years : Nat := 365 * 400 + 97
def daysPer100Years : Nat := 365 * 100 + 24
def daysPer4Years : Nat := 365 * 4 + 1
def absoluteZeroYear : Int := -292277022399
/-- The constant `unixToInternal + internalToAbsolute` of package `time`. -/
def unixToAbsolute : Int := 62135596800 + 9223371966579724800

/-- Go's `Time.abs` for a UTC time: `uint64(sec + (unixToInternal +
internalToAbsolute))`, the seconds since January 1 of the absolute zero
year. -/
def Time.abs (t : Time) : Nat := ((t.sec + unixToAbsolute) % 2 ^ 64).toNat

/-- Go's `isLeap`. -/
def isLeap (year : Int) : Bool :=
  year.tmod 4 == 0 && (year.tmod 100 != 0 || year.tmod 400 == 0)

/-- The table `daysBefore` of package `time`: the days of a non-leap year
before the month starts. -/
def daysBefore : List Nat :=
  [0, 31, 59, 90, 120, 151, 181, 212, 243, 273, 304, 334, 365]

/-- The first half of Go's `absDate`: the year (counted from the absolute
zero year) and the day within the year, both zero based. -/
def absYearDay (abs : Nat) : Nat × Nat :=
  let d := abs / secondsPerDay
  -- 400 year cycles
  let n := d / daysPer400Years
  let y := 400 * n
  let d := d - daysPer400Years * n
  -- 100 year cycles; n -= n >> 2
  let n := d / daysPer100Years
  let n := n - n / 4
  let y := y + 100 * n
  let d := d - daysPer100Years * n
  -- 4 year cycles
  let n := d / daysPer4Years
  let y := y + 4 * n
  let d := d - daysPer4Years * n
  -- years of a 4 year cycle; n -= n >> 2
  let n := d / 365
  let n := n - n / 4
  let y := y + n
  let d := d - 365 * n
  (y, d)

/-- The second half of Go's `absDate`: month (January is 1) and day of the
month from the zero based day of the year. -/
def monthDay (leap : Bool) (yday : Nat) : Nat × Nat :=
  if leap && yday == 31 + 29 - 1 then (2, 29)
  else
    let day := if leap && yday > 31 + 29 - 1 then yday - 1 else yday
    let month := day / 31
    let last := daysBefore.getD (month + 1) 0
    if day ≥ last then (month + 1 + 1, day - last + 1)
    else (month + 1, day - daysBefore.getD month 0 + 1)

/-- Go's `absDate(abs, true)`: year, month, day. -/
def absDate (abs : Nat) : Int × Nat × Nat :=
  let yd := absYearDay abs
  let year : Int := (yd.1 : Int) + absoluteZeroYear
  let md := monthDay (isLeap year) yd.2
  (year, md.1, md.2)

/-- Go's `absClock`: hour, minute, second of the day. -/
def absClock (abs : Nat) : Nat × Nat × Nat :=
  let sec := abs % secondsPerDay
  let hour := sec / 3600
  let sec := sec - hour * 3600
  let min := sec / 60
  let sec := sec - min * 60
  (hour, min, sec)

/-- The decimal digit `d`. -/
def digitChar (d : Nat) : Char := Char.ofNat (48 + d % 10)

/-- Go's `appendInt(nil, x, width)`: decimal, zero padded to `width` digits,
a minus sign before the digits of a negative number. -/
def appendInt (x : Int) (width : Nat) : List Char :=
  let u := x.natAbs
  let sign : List Char := if x < 0 then ['-'] else []
  if width = 2 ∧ u < 100 then
    sign ++ [digitChar (u / 10), digitChar u]
  else if width = 4 ∧ u < 10000 then
    sign ++ [digitChar (u / 1000), digitChar (u / 100), digitChar (u / 10), digitChar u]
  else
    let ds := Nat.toDigits 10 u
    sign ++ List.replicate (width - ds.length) '0' ++ ds

/-- The text Go's `Format` appends for the layout `2006-01-02T15:04:05Z`:
the year (four digits), month, day, hour, minute and second (two digits
each) and the literal characters `-`, `T`, `:` and `Z`. -/
def formatStamp (year : Int) (month day hour min sec : Nat) : List Char :=
  appendInt year 4 ++ ['-'] ++ appendInt month 2 ++ ['-'] ++ appendInt day 2 ++ ['T'] ++
    appendInt hour 2 ++ [':'] ++ appendInt min 2 ++ [':'] ++ appendInt sec 2 ++ ['Z']

/-- Go's `t.Format("2006-01-02T15:04:05Z")` for a UTC time. -/
def Time.Format (t : Time) : String :=
  let date := absDate t.abs
  let clock := absClock t.abs
  String.mk (formatStamp date.1 date.2.1 date.2.2 clock.1 clock.2.1 clock.2.2)

/-- The year `t.Year()` of a UTC time. -/
def Time.Year (t : Time) : Int := (absDate t.abs).1

/-- The instant is not before January 1 of the absolute zero year: package
`time` computes dates from there on ("times before it will not compute
correctly"), the conversion to absolute seconds wrapping around below. -/
def Time.afterAbsoluteZero (t : Time) : Prop := 0 ≤ t.sec + unixToAbsolute

instance Time.afterAbsoluteZeroDecidable (t : Time) : Decidable t.afterAbsoluteZero :=
  inferInstanceAs (Decidable (0 ≤ t.sec + unixToAbsolute))

/-- The text `YYYY-MM-DDTHH:MM:SSZ` of the spec for six fields: each digit of
the year (four), month, day, hour, minute and second (two each), most
significant first, between the literal characters. -/
def layoutText (Y M D h m s : Nat) : List Char :=
  [digitChar (Y / 1000), digitChar (Y / 100), digitChar (Y / 10), digitChar Y, '-',
    digitChar (M / 10), digitChar M, '-', digitChar (D / 10), digitChar D, 'T',
    digitChar (h / 10), digitChar h, ':', digitChar (m / 10), digitChar m, ':',
    digitChar (s / 10), digitChar s, 'Z']

/-- The month `t.Month()` of a UTC time, January being 1. -/
def Time.Month (t : Time) : Nat := (absDate t.abs).2.1

/-- The day of the month `t.Day()` of a UTC time. -/
def Time.Day (t : Time) : Nat := (absDate t.abs).2.2

/-- The hour `t.Hour()` of a UTC time. -/
def Time.Hour (t : Time) : Nat := (absClock t.abs).1

/-- The minute `t.Minute()` of a UTC time. -/
def Time.Minute (t : Time) : Nat := (absClock t.abs).2.1

/-- The second `t.Second()` of a UTC time. -/
def Time.Second (t : Time) : Nat := (absClock t.abs).2.2


/-! ## The configuration, the outside world and the events of a run -/

/-- The struct `Backup`.  The session and the S3 client are handles to the
outside world: what their calls return is in `World`. -/
structure Backup where
  HourlyBackups : Int
  DailyBackups : Int
  WeeklyBackups : Int
  MonthlyBackups : Int
  S3Bucket : String
  S3Path : String
  DataDirectory : String

/-- The logrus levels the package logs at. -/
inductive Level where
  | Debug | Info | Warn | Error | Fatal
  deriving DecidableEq, Repr

/-- What a run does that can be seen from outside, besides `call`, which
marks the entry into a method of `Backup`. -/
inductive Event where
  | log (level : Level) (msg : String)
  | call (fn : String)
  | OpenFile (path : String)
  | WriteString (data : String)
  | Mkdir (path : String)
  | TempFile (dir pattern : String)
  | Open (path : String)
  | WriteHeader (name : String)
  | Copy (path : String)
  | Close (what : String)
  | Upload (bucket key path : String)
  | ListObjects (bucket pfx : String)
  | BatchDelete (bucket : String) (keys : List String)
  | RemoveAll (path : String)
  deriving DecidableEq, Repr

/-- One invocation of the callback `filepath.Walk` makes, with the results
of the calls `addFile` makes for the path. -/
structure WalkEntry where
  path : String
  walkErr : Option String := none
  isDir : Bool := false
  openErr : Option String := none
  statErr : Option String := none
  headerErr : Option String := none
  writeHeaderErr : Option String := none
  copyErr : Option String := none
  closeErr : Option String := none

/-- The outside world of one run: the result of every external call. -/
structure World where
  /-- The result of `time.Now().UTC()`. -/
  now : Time
  /-- The result of `os.TempDir()`. -/
  TempDir : String
  /-- The error of `os.OpenFile` on the marker file. -/
  openFileErr : Option String := none
  /-- The error of `backupFile.WriteString`. -/
  writeStringErr : Option String := none
  /-- The error of `os.Mkdir`. -/
  mkdirErr : Option String := none
  /-- The error of `ioutil.TempFile`, or the name of the file it created. -/
  tempFile : Except String String
  /-- The callback invocations of `filepath.Walk`, in order. -/
  walk : List WalkEntry := []
  twCloseErr : Option String := none
  gwCloseErr : Option String := none
  fileCloseErr : Option String := none
  /-- The error of `os.Open` on the archive in `uploadToS3`. -/
  openErr : Option String := none
  /-- The error of `uploader.Upload`. -/
  uploadErr : Option String := none
  uploadCloseErr : Option String := none
  /-- The result of `S3Service.ListObjects` for a bucket and a key
  beginning: an error, or the keys of `Contents`. -/
  listObjects : String → String → Except String (List String)
  /-- The error of `batcher.Delete` for a bucket and the keys to delete. -/
  batchDelete : String → List String → Option String := fun _ _ => none
  /-- The error of `os.RemoveAll`. -/
  removeAllErr : Option String := none

/-- How a call ends: it returns, the process exits (`log.Fatal` calls
`os.Exit(1)`), or the goroutine panics. -/
inductive Ctl (α : Type) where
  | ret (a : α)
  | exit (code : Nat)
  | panic (msg : String)
  deriving DecidableEq, Repr

/-- The keys of the `BatchDelete` events of a trace, in order. -/
def scheduled : List Event → List String
  | [] => []
  | Event.BatchDelete _ keys :: tr => keys ++ scheduled tr
  | _ :: tr => scheduled tr

/-- The keys of the `Upload` events of a trace, in order: the keys the run
handed to `uploader.Upload`. -/
def uploadedKeys : List Event → List String
  | [] => []
  | Event.Upload _ key _ :: tr => key :: uploadedKeys tr
  | _ :: tr => uploadedKeys tr

/-- The number of delete requests of a trace. -/
def deleteRequests : List Event → Nat
  | [] => 0
  | Event.BatchDelete _ _ :: tr => deleteRequests tr + 1
  | _ :: tr => deleteRequests tr

/-- A warning logged when a deferred `Close` fails. -/
def closeWarn (what : String) (msg : String) : Option String → List Event
  | none => [Event.Close what]
  | some err => [Event.Close what, Event.log Level.Warn (msg ++ err)]

/-! ## The methods of `Backup` -/

/-- The tar entry name `addFile` assigns:
`strings.ReplaceAll(path, b.DataDirectory+"/", "")`. -/
def headerName (b : Backup) (path : String) : String :=
  ReplaceAll path (b.DataDirectory ++ "/") ""

/-- The method `Backup.addFile`. -/
def addFile (b : Backup) (e : WalkEntry) : List Event × Option String :=
  let t0 := [Event.call "addFile", Event.Open e.path]
  match e.openErr with
  | some err => (t0, some err)
  | none =>
    let closing := closeWarn e.path
      "failed to close file as part of tar creation: error = " e.closeErr
    match e.statErr with
    | some _ => (t0 ++ closing, none)
    | none =>
      match e.headerErr with
      | some err => (t0 ++ closing, some err)
      | none =>
        let name := headerName b e.path
        let t1 := t0 ++ [Event.log Level.Info ("Adding file: " ++ e.path ++ " => " ++ name),
          Event.WriteHeader name]
        match e.writeHeaderErr with
        | some err => (t1 ++ closing, some err)
        | none =>
          match e.copyErr with
          | some err => (t1 ++ [Event.Copy e.path] ++ closing, some err)
          | none => (t1 ++ [Event.Copy e.path] ++ closing, none)

/-- The call `filepath.Walk(b.DataDirectory, ...)` in `compressDirectory`:
the callback on every entry until it returns an error. -/
def walkTree (b : Backup) : List WalkEntry → List Event × Option String
  | [] => ([], none)
  | e :: es =>
    match e.walkErr with
    | some err => ([], some err)
    | none =>
      if e.isDir then walkTree b es
      else
        match addFile b e with
        | (t, some err) => (t, some err)
        | (t, none) => ((t ++ (walkTree b es).1), (walkTree b es).2)

/-- The marker record `fmt.Sprintf("%s/%s\n", backupType, now)`. -/
def markerRecord (now backupType : String) : String :=
  backupType ++ "/" ++ now ++ "\n"

/-- The method `Backup.compressDirectory`. -/
def compressDirectory (b : Backup) (w : World) (now backupType : String) :
    List Event × Except String String :=
  let t0 := [Event.call "compressDirectory",
    Event.OpenFile (b.DataDirectory ++ "/BACKUP_DATE")]
  match w.openFileErr with
  | some err => (t0, Except.error err)
  | none =>
    let t1 := t0 ++ [Event.WriteString (markerRecord now backupType)]
    match w.writeStringErr with
    | some err => (t1, Except.error err)
    | none =>
      let tempDir := w.TempDir ++ "/backups"
      let t2 := t1 ++ [Event.Mkdir tempDir]
      match w.mkdirErr with
      | some err => (t2, Except.error err)
      | none =>
        let t3 := t2 ++ [Event.TempFile tempDir "backup*.tar.gz"]
        match w.tempFile with
        | Except.error err => (t3, Except.error err)
        | Except.ok name =>
          -- deferred, so run last to first: tw.Close, gw.Close, file.Close
          let closing :=
            closeWarn "tar" "failed to close tar writer for backup: " w.twCloseErr ++
            closeWarn "gzip" "failed to close gzip writer for backup: " w.gwCloseErr ++
            closeWarn name "failed to close of backup temp file: error = " w.fileCloseErr
          match walkTree b w.walk with
          | (tw, some err) => (t3 ++ tw ++ closing, Except.error err)
          | (tw, none) =>
            (t3 ++ tw ++
              [Event.log Level.Info ("Archive created successfully: output file = " ++ name)]
              ++ closing, Except.ok name)

/-- The key of the upload: `fmt.Sprintf("%s/%s/%s.tar.gz", b.S3Path,
backupType, now)`. -/
def uploadPath (b : Backup) (now backupType : String) : String :=
  b.S3Path ++ "/" ++ backupType ++ "/" ++ now ++ ".tar.gz"

/-- The method `Backup.uploadToS3`. -/
def uploadToS3 (b : Backup) (w : World) (now backupType path : String) :
    List Event × Option String :=
  let t0 := [Event.call "uploadToS3", Event.Open path]
  match w.openErr with
  | some err => (t0, some err)
  | none =>
    let key := uploadPath b now backupType
    let closing := closeWarn path
      ("failed to close S3 upload file: file = " ++ path ++ ", error = ") w.uploadCloseErr
    let t1 := t0 ++ [Event.log Level.Info ("Uploading to backup file: key = " ++ key),
      Event.Upload b.S3Bucket key path]
    match w.uploadErr with
    | some err => (t1 ++ closing, some err)
    | none =>
      -- log.Info, not log.Infof: the operands are printed one after the other
      (t1 ++ [Event.log Level.Info
        ("Uploaded backup successfully: file = %s, key = %s" ++ path ++ key)] ++ closing, none)

/-- The method `Backup.getBucketObjects`, with the keys of the objects for
the objects. -/
def getBucketObjects (b : Backup) (w : World) (backupType : String) :
    List Event × Ctl (List String) :=
  let pfx := b.S3Path ++ "/" ++ backupType
  let t0 := [Event.call "getBucketObjects", Event.ListObjects b.S3Bucket pfx]
  match w.listObjects b.S3Bucket pfx with
  | Except.error err => (t0 ++ [Event.log Level.Fatal err], Ctl.exit 1)
  | Except.ok contents => (t0, Ctl.ret contents)

/-- The retention count `pruneS3` selects: the variable `numberToKeep` after
the `switch`. -/
def numberToKeep (b : Backup) (backupType : String) : Int :=
  if backupType = "daily" then b.DailyBackups
  else if backupType = "weekly" then b.WeeklyBackups
  else if backupType = "monthly" then b.MonthlyBackups
  else b.HourlyBackups

/-- The method `Backup.pruneS3`. -/
def pruneS3 (b : Backup) (w : World) (backupType : String) :
    List Event × Ctl (Option String) :=
  let t0 := [Event.call "pruneS3"]
  match getBucketObjects b w backupType with
  | (t1, Ctl.exit code) => (t0 ++ t1, Ctl.exit code)
  | (t1, Ctl.panic msg) => (t0 ++ t1, Ctl.panic msg)
  | (t1, Ctl.ret objects) =>
    let keys := sortReverse objects
    let n := numberToKeep b backupType
    if (keys.length : Int) ≤ n then
      (t0 ++ t1 ++ [Event.log Level.Debug "Nothing to prune, skipping."], Ctl.ret none)
    else if n < 0 then
      -- keys[numberToKeep:] with a negative index
      (t0 ++ t1, Ctl.panic "slice bounds out of range")
    else
      let deleteObjects := keys.drop n.toNat
      let t2 := t0 ++ t1 ++ [Event.BatchDelete b.S3Bucket deleteObjects]
      match w.batchDelete b.S3Bucket deleteObjects with
      | some err => (t2, Ctl.ret (some err))
      | none =>
        (t2 ++ [Event.log Level.Info "S3 backups pruned successfully"], Ctl.ret none)

/-- The method `Backup.removeBackupDirectory`. -/
def removeBackupDirectory (_b : Backup) (w : World) : List Event × Option String :=
  ([Event.call "removeBackupDirectory", Event.RemoveAll (w.TempDir ++ "/backups")],
    w.removeAllErr)

/-- The log line for an error that does not end the run. -/
def reportErr (level : Level) (msg : String) : Option String → List Event
  | none => []
  | some err => [Event.log level (msg ++ err)]

/-- The method `Backup.Run`. -/
def Run (b : Backup) (w : World) (backupType : String) : List Event × Ctl Unit :=
  let now := w.now.Format
  let t0 := [Event.log Level.Info "Beginning backup",
    Event.log Level.Info "Compressing directory"]
  match compressDirectory b w now backupType with
  | (t1, Except.error err) =>
    (t0 ++ t1 ++ [Event.log Level.Error ("failed to compress directory: error = " ++ err)],
      Ctl.ret ())
  | (t1, Except.ok archivePath) =>
    let t2 := t0 ++ t1 ++ [Event.log Level.Info "Uploading to S3"]
    match uploadToS3 b w now backupType archivePath with
    | (t3, some err) =>
      (t2 ++ t3 ++ [Event.log Level.Error ("failed to upload to S3: error = " ++ err)],
        Ctl.ret ())
    | (t3, none) =>
      let t4 := t2 ++ t3 ++ [Event.log Level.Info "Pruning old backups from S3"]
      match pruneS3 b w backupType with
      | (t5, Ctl.exit code) => (t4 ++ t5, Ctl.exit code)
      | (t5, Ctl.panic msg) => (t4 ++ t5, Ctl.panic msg)
      | (t5, Ctl.ret perr) =>
        -- report but carry on anyway
        let t6 := t4 ++ t5 ++
          reportErr Level.Error "failed to prune old backups from S3: error = " perr ++
          [Event.log Level.Info "Removing temporary backup directory"]
        let r := removeBackupDirectory b w
        (t6 ++ r.1 ++ reportErr Level.Warn "failed to delete backup directory: error = " r.2 ++
          [Event.log Level.Info "Backup complete"], Ctl.ret ())

/-! ## The marker file -/

/-- The bytes of a Go string. -/
def bytes (s : String) : List UInt8 := s.toList.flatMap String.utf8EncodeChar

/-- The content of a file after it is opened with `os.O_WRONLY|os.O_CREATE`
(no truncation, offset zero; absent files start empty) and `data` is
written once: the bytes of `data`, then what the old content had beyond
them. -/
def writeAtStart (old data : List UInt8) : List UInt8 :=
  data ++ old.drop data.length

/-- The content of `BACKUP_DATE` after the marker write of
`compressDirectory`. -/
def markerAfterWrite (old : List UInt8) (now backupType : String) : List UInt8 :=
  writeAtStart old (bytes (markerRecord now backupType))

/-- Go's `bytes.Split(content, "\n")`: the segments between line feeds. -/
def splitLF : List UInt8 → List (List UInt8)
  | [] => [[]]
  | c :: cs =>
    if c = 10 then [] :: splitLF cs
    else
      match splitLF cs with
      | [] => [[c]]
      | l :: ls => (c :: l) :: ls

/-- The lines of a text: the segments between line feeds, without the empty
segment after a final line feed (and none for an empty text). -/
def linesOf (content : List UInt8) : List (List UInt8) :=
  let segs := splitLF content
  if segs.getLast? = some [] then segs.dropLast else segs

/-- The last line of a text, if it has one. -/
def lastLine (content : List UInt8) : Option (List UInt8) := (linesOf content).getLast?

/-- The first line of a text, if it has one. -/
def firstLine (content : List UInt8) : Option (List UInt8) := (linesOf content).head?

/-- The keys an S3 bucket listing returns after the keys of a delete request
are gone. -/
def remaining (listed deleted : List String) : List String :=
  listed.filter (fun k => k ∉ deleted)


/-! ## Observing a run -/

/-- The pipeline stage an event starts, if it is the entry into one. -/
def stageOf : Event → Option String
  | Event.call fn =>
    if fn = "compressDirectory" ∨ fn = "uploadToS3" ∨ fn = "pruneS3" ∨
        fn = "removeBackupDirectory" then some fn else none
  | _ => none

/-- The pipeline stages a trace enters, in order, one item per entry. -/
def stages (tr : List Event) : List String := tr.filterMap stageOf

/-- Whether an event is a call to the object store or the removal of the
temporary directory: the external effects of Upload, Prune and Cleanup. -/
def isLaterEffect : Event → Bool
  | Event.Upload _ _ _ => true
  | Event.ListObjects _ _ => true
  | Event.BatchDelete _ _ => true
  | Event.RemoveAll _ => true
  | _ => false

/-- Whether an event is an external effect of Prune or Cleanup. -/
def isPruneOrCleanupEffect : Event → Bool
  | Event.ListObjects _ _ => true
  | Event.BatchDelete _ _ => true
  | Event.RemoveAll _ => true
  | _ => false

/-- The last line `Run` logs when it runs to its end. -/
def backupComplete : Event := Event.log Level.Info "Backup complete"

/-- The world `w` with a listing that returns `keys`. -/
def withListing (w : World) (keys : List String) : World :=
  { w with listObjects := fun _ _ => Except.ok keys }

/-- The trace of a run up to the end of `pruneS3`, when Archive and Upload
succeed. -/
def tracePruned (b : Backup) (w : World) (backupType path : String) : List Event :=
  [Event.log Level.Info "Beginning backup", Event.log Level.Info "Compressing directory"] ++
    (compressDirectory b w w.now.Format backupType).1 ++
    [Event.log Level.Info "Uploading to S3"] ++
    (uploadToS3 b w w.now.Format backupType path).1 ++
    [Event.log Level.Info "Pruning old backups from S3"] ++
    (pruneS3 b w backupType).1

/-! ## Example configurations and worlds -/

def exampleBackup : Backup :=
  { HourlyBackups := 24, DailyBackups := 3, WeeklyBackups := 4, MonthlyBackups := 12,
    S3Bucket := "bucket", S3Path := "backups", DataDirectory := "/data" }

def keyT1 : String := "backups/daily/2023-11-10T00:00:00Z.tar.gz"
def keyT2 : String := "backups/daily/2023-11-11T00:00:00Z.tar.gz"
def keyT3 : String := "backups/daily/2023-11-12T00:00:00Z.tar.gz"
def keyT4 : String := "backups/daily/2023-11-13T00:00:00Z.tar.gz"
def keyT5 : String := "backups/daily/2023-11-14T22:13:20Z.tar.gz"

/-- The listing of the five keys, not in time order. -/
def fiveKeys : List String := [keyT1, keyT5, keyT3, keyT2, keyT4]

/-- A world where every external call succeeds, the clock reads
2023-11-14T22:13:20Z, the data directory holds `a.txt` and `sub/b.txt`, and
the listing returns `fiveKeys`. -/
def exampleWorld : World :=
  { now := { sec := 1700000000, nsec := 0 },
    TempDir := "/tmp",
    tempFile := Except.ok "/tmp/backups/backup123.tar.gz",
    walk := [{ path := "/data", isDir := true }, { path := "/data/a.txt" },
      { path := "/data/sub", isDir := true }, { path := "/data/sub/b.txt" }],
    listObjects := fun _ _ => Except.ok fiveKeys }

/-- The example world with a listing that fails. -/
def listErrorWorld : World :=
  { exampleWorld with listObjects := fun _ _ => Except.error "AccessDenied" }

/-- The example world with a data directory that cannot be read. -/
def archiveErrorWorld : World :=
  { exampleWorld with
    walk := [{ path := "/data", walkErr := some "permission denied", isDir := true }] }

/-- The example world with an upload that fails. -/
def uploadErrorWorld : World :=
  { exampleWorld with uploadErr := some "RequestTimeout" }

/-- The example world with a batched delete and a directory removal that
fail. -/
def deleteErrorWorld : World :=
  { exampleWorld with
    batchDelete := fun _ _ => some "BatchedDeleteIncomplete",
    removeAllErr := some "directory not empty" }

/-- A configuration with a different count for each backup type. -/
def fourCounts : Backup :=
  { exampleBackup with
    HourlyBackups := 2, DailyBackups := 3, WeeklyBackups := 4, MonthlyBackups := 1 }

/-- The instant 2023-11-14T22:13:19Z, a second before the clock of the
example world. -/
def secondBefore : Time := { sec := 1699999999, nsec := 0 }

/-- The world `w` with the clock reading `t`. -/
def atTime (w : World) (t : Time) : World := { w with now := t }

/-- The instant -0002-12-31T23:59:59Z. -/
def lastSecondOfMinus2 : Time := { sec := -62198755201, nsec := 0 }

/-- The instant -0001-01-01T00:00:00Z. -/
def firstSecondOfMinus1 : Time := { sec := -62198755200, nsec := 0 }

/-- The least instant of an `int64` of seconds, before the absolute zero
year; Go formats it as 292277026596-12-04T15:30:08Z. -/
def leastInstant : Time := { sec := -9223372036854775808, nsec := 0 }

/-- A world whose clock reads -0001-01-01T00:00:00Z and whose listing holds
the key of this run and the key of the second before. -/
def yearMinus1World : World :=
  { exampleWorld with
    now := firstSecondOfMinus1
    listObjects := fun _ _ => Except.ok
      ["backups/daily/-0002-12-31T23:59:59Z.tar.gz",
        "backups/daily/-0001-01-01T00:00:00Z.tar.gz"] }

/-- A world whose clock reads 2023-11-14T22:13:20Z and whose listing holds
the key of this run and the key of the least instant. -/
def wrappedKeyWorld : World :=
  withListing exampleWorld
    ["backups/daily/292277026596-12-04T15:30:08Z.tar.gz",
      "backups/daily/2023-11-14T22:13:20Z.tar.gz"]

/-- A world whose clock reads 2023-11-14T22:13:20Z and whose listing holds
the key of this run and a key of the year -0002. -/
def oldKeyWorld : World :=
  withListing exampleWorld
    ["backups/daily/-0002-12-31T23:59:59Z.tar.gz",
      "backups/daily/2023-11-14T22:13:20Z.tar.gz"]

/-- The instant 9999-12-31T23:59:59Z. -/
def lastSecondOf9999 : Time := { sec := 253402300799, nsec := 0 }

/-- The instant 10000-01-01T00:00:00Z. -/
def firstSecondOf10000 : Time := { sec := 253402300800, nsec := 0 }

/-- A configuration that keeps one daily backup. -/
def keepOneBackup : Backup := { exampleBackup with DailyBackups := 1 }

/-- The keys uploaded in the last second of 9999 and the first of 10000. -/
def keysAround10000 : List String :=
  [uploadPath keepOneBackup lastSecondOf9999.Format "daily",
    uploadPath keepOneBackup firstSecondOf10000.Format "daily"]

/-- A world whose clock reads 10000-01-01T00:00:00Z and whose listing holds
the key of this run and the key of the second before. -/
def year10000World : World :=
  { exampleWorld with
    now := firstSecondOf10000
    listObjects := fun _ _ => Except.ok keysAround10000 }

/-- A world whose clock reads 2023-11-14T22:13:20Z and whose listing holds
the key of this run and the key of the second before. -/
def twoKeysWorld : World :=
  withListing exampleWorld
    [uploadPath keepOneBackup secondBefore.Format "daily",
      uploadPath keepOneBackup exampleWorld.now.Format "daily"]

/-! ## Sorting in descending order -/

theorem revLE_total (a b : String) : revLE a b ∨ revLE b a := le_total _ _

theorem revLE_trans {a b c : String} (h₁ : revLE a b) (h₂ : revLE b c) : revLE a c :=
  le_trans h₂ h₁

theorem revLE_antisymm {a b : String} (h₁ : revLE a b) (h₂ : revLE b a) : a = b :=
  String.toList_inj.mp (le_antisymm h₂ h₁)

theorem strLess_iff_revLE {a b : String} : strLess a b ↔ revLE b a ∧ a ≠ b := by
  unfold strLess revLE
  rw [lt_iff_le_and_ne, Ne, Ne, String.toList_inj]

theorem sortReverse_perm (keys : List String) : (sortReverse keys).Perm keys :=
  List.perm_insertionSort revLE keys

theorem sortReverse_sorted (keys : List String) : List.Sorted revLE (sortReverse keys) :=
  @List.sorted_insertionSort _ revLE _ ⟨revLE_total⟩ ⟨fun _ _ _ => revLE_trans⟩ keys

/-- Any descending arrangement of the keys is the one `sortReverse` gives, so
the result of `sort.Sort` does not depend on its algorithm. -/
theorem sortReverse_unique {keys sorted : List String} (hp : sorted.Perm keys)
    (hs : List.Sorted revLE sorted) : sorted = sortReverse keys :=
  @List.eq_of_perm_of_sorted _ revLE ⟨fun _ _ => revLE_antisymm⟩ _ _
    (hp.trans (sortReverse_perm keys).symm) hs (sortReverse_sorted keys)

theorem sortReverse_length (keys : List String) : (sortReverse keys).length = keys.length :=
  (sortReverse_perm keys).length_eq

/-- In a descending list without repetition, what stands after the first `n`
keys is less than each of the first `n`. -/
theorem drop_lt_take {l : List String} (hs : List.Sorted revLE l) (hn : l.Nodup) (n : Nat)
    {d k : String} (hd : d ∈ l.drop n) (hk : k ∈ l.take n) : strLess d k := by
  have hs' : List.Pairwise revLE (l.take n ++ l.drop n) := by
    rw [List.take_append_drop]; exact hs
  have hn' : (l.take n ++ l.drop n).Nodup := by
    rw [List.take_append_drop]; exact hn
  rw [List.pairwise_append] at hs'
  rw [List.nodup_append] at hn'
  refine strLess_iff_revLE.mpr ⟨hs'.2.2 k hk d hd, ?_⟩
  rintro rfl
  exact hn'.2.2 hk hd


/-! ## What `pruneS3` schedules -/

theorem pruneS3_listed {b : Backup} {w : World} {backupType : String} {K : List String}
    (hlist : w.listObjects b.S3Bucket (b.S3Path ++ "/" ++ backupType) = Except.ok K) :
    pruneS3 b w backupType =
      if ((sortReverse K).length : Int) ≤ numberToKeep b backupType then
        ([Event.call "pruneS3", Event.call "getBucketObjects",
          Event.ListObjects b.S3Bucket (b.S3Path ++ "/" ++ backupType),
          Event.log Level.Debug "Nothing to prune, skipping."], Ctl.ret none)
      else if numberToKeep b backupType < 0 then
        ([Event.call "pruneS3", Event.call "getBucketObjects",
          Event.ListObjects b.S3Bucket (b.S3Path ++ "/" ++ backupType)],
          Ctl.panic "slice bounds out of range")
      else
        match w.batchDelete b.S3Bucket
            ((sortReverse K).drop (numberToKeep b backupType).toNat) with
        | some err =>
          ([Event.call "pruneS3", Event.call "getBucketObjects",
            Event.ListObjects b.S3Bucket (b.S3Path ++ "/" ++ backupType),
            Event.BatchDelete b.S3Bucket
              ((sortReverse K).drop (numberToKeep b backupType).toNat)],
            Ctl.ret (some err))
        | none =>
          ([Event.call "pruneS3", Event.call "getBucketObjects",
            Event.ListObjects b.S3Bucket (b.S3Path ++ "/" ++ backupType),
            Event.BatchDelete b.S3Bucket
              ((sortReverse K).drop (numberToKeep b backupType).toNat),
            Event.log Level.Info "S3 backups pruned successfully"], Ctl.ret none) := by
  simp only [pruneS3, getBucketObjects, hlist]
  split_ifs <;> rfl

/-- With a listing `K` and a retention count that is not negative, the keys
`pruneS3` asks to delete are the descending keys from position `N` on, in at
most one request. -/
theorem pruneS3_scheduled {b : Backup} {w : World} {backupType : String} {K : List String}
    (hlist : w.listObjects b.S3Bucket (b.S3Path ++ "/" ++ backupType) = Except.ok K)
    (hN : 0 ≤ numberToKeep b backupType) :
    scheduled (pruneS3 b w backupType).1 =
        (sortReverse K).drop (numberToKeep b backupType).toNat ∧
      deleteRequests (pruneS3 b w backupType).1 ≤ 1 := by
  rw [pruneS3_listed hlist]
  split_ifs with h₁ h₂
  · have : (sortReverse K).length ≤ (numberToKeep b backupType).toNat := by omega
    simp [scheduled, deleteRequests, List.drop_eq_nil_of_le this]
  · omega
  · split <;> simp [scheduled, deleteRequests]


theorem filter_length_le_of_imp {α : Type} (p q : α → Bool) (l : List α)
    (h : ∀ a ∈ l, p a = true → q a = true) : (l.filter p).length ≤ (l.filter q).length := by
  induction l with
  | nil => simp
  | cons a l ih =>
    have ih' := ih (fun x hx => h x (List.mem_cons_of_mem _ hx))
    have ha := h a (List.mem_cons_self _ _)
    by_cases hp : p a = true
    · simp [List.filter_cons, hp, ha hp, ih']
    · by_cases hq : q a = true
      · simp [List.filter_cons, hp, hq]
        omega
      · simp [List.filter_cons, hp, hq]
        exact ih'

/-- The keys of a listing that stay when the descending keys from position
`n` on are deleted number `min |K| n`. -/
theorem remaining_length {K : List String} (hK : K.Nodup) (n : Nat) :
    (remaining K ((sortReverse K).drop n)).length = min K.length n := by
  have hp := sortReverse_perm K
  have hn : (sortReverse K).Nodup := hp.nodup_iff.mpr hK
  unfold remaining
  rw [← (hp.filter _).length_eq]
  have hsplit : (sortReverse K).filter (fun k => decide (k ∉ (sortReverse K).drop n)) =
      (sortReverse K).take n := by
    conv_lhs => rw [← List.take_append_drop n (sortReverse K)]
    have hd : (List.take n (sortReverse K) ++ List.drop n (sortReverse K)).Nodup := by
      rw [List.take_append_drop]; exact hn
    rw [List.nodup_append] at hd
    rw [List.take_append_drop, ← List.take_append_drop n (sortReverse K), List.filter_append,
      List.take_append_drop]
    have h1 : (List.take n (sortReverse K)).filter
        (fun k => decide (k ∉ (sortReverse K).drop n)) = List.take n (sortReverse K) := by
      rw [List.filter_eq_self]
      intro a ha
      simpa using fun h => hd.2.2 ha h
    have h2 : (List.drop n (sortReverse K)).filter
        (fun k => decide (k ∉ (sortReverse K).drop n)) = [] := by
      rw [List.filter_eq_nil_iff]
      intro a ha
      simpa using ha
    rw [h1, h2, List.append_nil]
  rw [hsplit, List.length_take, sortReverse_length, Nat.min_comm]


/-- Five keys in ascending order, listed in any order, sort to the
descending arrangement. -/
theorem sortReverse_five {K : List String} {k₁ k₂ k₃ k₄ k₅ : String}
    (h₁₂ : strLess k₁ k₂) (h₂₃ : strLess k₂ k₃) (h₃₄ : strLess k₃ k₄) (h₄₅ : strLess k₄ k₅)
    (hK : K.Perm [k₁, k₂, k₃, k₄, k₅]) : sortReverse K = [k₅, k₄, k₃, k₂, k₁] := by
  unfold strLess at h₁₂ h₂₃ h₃₄ h₄₅
  have a₁₂ := h₁₂.le
  have a₂₃ := h₂₃.le
  have a₃₄ := h₃₄.le
  have a₄₅ := h₄₅.le
  have a₁₃ := a₁₂.trans a₂₃
  have a₁₄ := a₁₃.trans a₃₄
  have a₁₅ := a₁₄.trans a₄₅
  have a₂₄ := a₂₃.trans a₃₄
  have a₂₅ := a₂₄.trans a₄₅
  have a₃₅ := a₃₄.trans a₄₅
  symm
  apply sortReverse_unique
  · refine List.Perm.trans ?_ hK.symm
    exact (List.reverse_perm [k₁, k₂, k₃, k₄, k₅])
  · simp only [List.Sorted, revLE, List.pairwise_cons, List.mem_cons, List.mem_singleton,
      forall_eq_or_imp, forall_eq, List.not_mem_nil, List.Pairwise.nil, and_true]
    simp only [IsEmpty.forall_iff, implies_true, and_true]
    exact ⟨⟨a₄₅, a₃₅, a₂₅, a₁₅⟩, ⟨a₃₄, a₂₄, a₁₄⟩, ⟨a₂₃, a₁₃⟩, a₁₂⟩

/-- C1: for a listing `K` of distinct keys and a retention count `N ≥ 0` of
the backup type, `pruneS3` issues at most one delete request; the keys in it
are distinct keys of `K`, number `max 0 (|K| - N)`, and each is less than
every key of `K` left out of the request; `min |K| N` keys are left out, and
a key with fewer than `N` greater keys in `K` is left out.  Scenario: five
keys `k₁ < k₂ < k₃ < k₄ < k₅` listed in any order, type "daily",
`DailyBackups = 3`: the request holds exactly `k₂` and `k₁`. -/
theorem pruneS3_deletes_oldest_excess (b : Backup) (w : World) (backupType : String)
    (K : List String)
    (hlist : w.listObjects b.S3Bucket (b.S3Path ++ "/" ++ backupType) = Except.ok K)
    (hdistinct : K.Nodup) (hN : 0 ≤ numberToKeep b backupType) :
    deleteRequests (pruneS3 b w backupType).1 ≤ 1 ∧
    (scheduled (pruneS3 b w backupType).1).Nodup ∧
    (∀ d ∈ scheduled (pruneS3 b w backupType).1, d ∈ K) ∧
    ((scheduled (pruneS3 b w backupType).1).length : Int) =
      max 0 ((K.length : Int) - numberToKeep b backupType) ∧
    (∀ d ∈ scheduled (pruneS3 b w backupType).1, ∀ k ∈ K,
      k ∉ scheduled (pruneS3 b w backupType).1 → strLess d k) ∧
    ((remaining K (scheduled (pruneS3 b w backupType).1)).length : Int) =
      min (K.length : Int) (numberToKeep b backupType) ∧
    (∀ k ∈ K, ((K.filter (fun x => strLess k x)).length : Int) < numberToKeep b backupType →
      k ∉ scheduled (pruneS3 b w backupType).1) ∧
    (∀ k₁ k₂ k₃ k₄ k₅ : String, strLess k₁ k₂ → strLess k₂ k₃ → strLess k₃ k₄ →
      strLess k₄ k₅ → K.Perm [k₁, k₂, k₃, k₄, k₅] → backupType = "daily" →
      b.DailyBackups = 3 → scheduled (pruneS3 b w backupType).1 = [k₂, k₁]) := by
  obtain ⟨hs, hr⟩ := pruneS3_scheduled hlist hN
  rw [hs]
  have hn : ((numberToKeep b backupType).toNat : Int) = numberToKeep b backupType :=
    Int.toNat_of_nonneg hN
  generalize (numberToKeep b backupType).toNat = n at hn ⊢
  have hp := sortReverse_perm K
  have hnd : (sortReverse K).Nodup := hp.nodup_iff.mpr hdistinct
  have hsorted := sortReverse_sorted K
  have hmemK : ∀ d ∈ (sortReverse K).drop n, d ∈ K := fun d hd =>
    hp.subset (List.mem_of_mem_drop hd)
  have hsmall : ∀ d ∈ (sortReverse K).drop n, ∀ k ∈ K, k ∉ (sortReverse K).drop n →
      strLess d k := by
    intro d hd k hk hkn
    have hk' : k ∈ List.take n (sortReverse K) ++ List.drop n (sortReverse K) := by
      rw [List.take_append_drop]; exact hp.symm.subset hk
    rcases List.mem_append.mp hk' with h | h
    · exact drop_lt_take hsorted hnd n hd h
    · exact absurd h hkn
  have hrem := remaining_length hdistinct n
  refine ⟨hr, hnd.sublist (List.drop_sublist _ _), hmemK, ?_, hsmall, ?_, ?_, ?_⟩
  · rw [List.length_drop, sortReverse_length]
    omega
  · rw [hrem]
    omega
  · intro k hk hlt hmem
    have hle : (remaining K ((sortReverse K).drop n)).length ≤
        (K.filter (fun x => decide (strLess k x))).length := by
      apply filter_length_le_of_imp
      intro a ha hna
      simp only [decide_eq_true_eq] at hna ⊢
      exact hsmall k hmem a ha hna
    have hlen : n < K.length := by
      have := List.length_pos_of_mem hmem
      rw [List.length_drop, sortReverse_length] at this
      omega
    rw [hrem] at hle
    omega
  · intro k₁ k₂ k₃ k₄ k₅ h₁₂ h₂₃ h₃₄ h₄₅ hK ht hd
    have h3 : n = 3 := by
      subst ht
      simp only [numberToKeep, if_true, hd] at hn
      omega
    subst h3
    rw [sortReverse_five h₁₂ h₂₃ h₃₄ h₄₅ hK]
    rfl


/-! ## The stages of a run -/

theorem stages_append (t₁ t₂ : List Event) : stages (t₁ ++ t₂) = stages t₁ ++ stages t₂ :=
  List.filterMap_append _ _ _

theorem stages_nil : stages [] = [] := rfl

theorem stages_cons (e : Event) (t : List Event) :
    stages (e :: t) = (stageOf e).toList ++ stages t := by
  unfold stages
  rw [List.filterMap_cons]
  cases stageOf e <;> rfl

/-- The entries into a pipeline stage are counted by `stages`. -/
theorem count_call_eq (fn : String) (h : stageOf (Event.call fn) = some fn)
    (tr : List Event) : tr.count (Event.call fn) = (stages tr).count fn := by
  induction tr with
  | nil => rfl
  | cons e t ih =>
    have key : (if (e == Event.call fn) = true then 1 else 0) =
        List.count fn (stageOf e).toList := by
      cases e with
      | call g =>
        by_cases hg : g = fn
        · subst hg
          simp [h]
        · have hne : (Event.call g == Event.call fn) = false := by simpa using hg
          rw [hne]
          cases hs : stageOf (Event.call g) with
          | none => simp
          | some x =>
            have hx : x = g := by
              simp only [stageOf] at hs
              split_ifs at hs
              exact (Option.some.inj hs).symm
            subst hx
            have hbeq : (x == fn) = false := by simpa using hg
            simp [List.count_cons, hbeq]
      | _ => simp [stageOf]
    rw [stages_cons, List.count_cons, List.count_append, ih, key]
    omega

theorem stages_closeWarn (what msg : String) (err : Option String) :
    stages (closeWarn what msg err) = [] := by
  cases err <;> rfl

theorem stages_reportErr (level : Level) (msg : String) (err : Option String) :
    stages (reportErr level msg err) = [] := by
  cases err <;> rfl

theorem stages_addFile (b : Backup) (e : WalkEntry) : stages (addFile b e).1 = [] := by
  unfold addFile
  cases e.openErr <;> cases e.statErr <;> cases e.headerErr <;> cases e.writeHeaderErr <;>
    cases e.copyErr <;> cases e.closeErr <;> rfl

theorem stages_walkTree (b : Backup) (es : List WalkEntry) : stages (walkTree b es).1 = [] := by
  induction es with
  | nil => rfl
  | cons e es ih =>
    unfold walkTree
    cases e.walkErr with
    | some err => rfl
    | none =>
      cases e.isDir with
      | true => simpa using ih
      | false =>
        have ha := stages_addFile b e
        rcases h : addFile b e with ⟨t, r⟩
        rw [h] at ha
        cases r with
        | some err => simpa using ha
        | none => simp [stages_append, ha, ih]

theorem stages_compressDirectory (b : Backup) (w : World) (now backupType : String) :
    stages (compressDirectory b w now backupType).1 = ["compressDirectory"] := by
  unfold compressDirectory
  cases w.openFileErr with
  | some err => rfl
  | none =>
    cases w.writeStringErr with
    | some err => rfl
    | none =>
      cases w.mkdirErr with
      | some err => rfl
      | none =>
        cases w.tempFile with
        | error err => rfl
        | ok name =>
          have hw := stages_walkTree b w.walk
          rcases h : walkTree b w.walk with ⟨t, r⟩
          rw [h] at hw
          simp only at hw
          cases r <;>
            simp [stages_cons, stages_nil, stages_append, stages_closeWarn, hw, stageOf]

theorem stages_uploadToS3 (b : Backup) (w : World) (now backupType path : String) :
    stages (uploadToS3 b w now backupType path).1 = ["uploadToS3"] := by
  unfold uploadToS3
  cases w.openErr <;> cases w.uploadErr <;> cases w.uploadCloseErr <;> rfl

theorem stages_pruneS3 (b : Backup) (w : World) (backupType : String) :
    stages (pruneS3 b w backupType).1 = ["pruneS3"] := by
  cases h : w.listObjects b.S3Bucket (b.S3Path ++ "/" ++ backupType) with
  | error err => simp only [pruneS3, getBucketObjects, h]; rfl
  | ok K =>
    rw [pruneS3_listed h]
    split_ifs
    · rfl
    · rfl
    · split <;> rfl

theorem stages_removeBackupDirectory (b : Backup) (w : World) :
    stages (removeBackupDirectory b w).1 = ["removeBackupDirectory"] := rfl


/-! ## The run, stage by stage -/

theorem Run_archive_error {b : Backup} {w : World} {backupType err : String}
    (h : (compressDirectory b w w.now.Format backupType).2 = Except.error err) :
    Run b w backupType =
      ([Event.log Level.Info "Beginning backup", Event.log Level.Info "Compressing directory"] ++
        (compressDirectory b w w.now.Format backupType).1 ++
        [Event.log Level.Error ("failed to compress directory: error = " ++ err)],
        Ctl.ret ()) := by
  rcases hc : compressDirectory b w w.now.Format backupType with ⟨t₁, r⟩
  rw [hc] at h
  simp only at h
  subst h
  simp only [Run, hc]

theorem Run_upload_error {b : Backup} {w : World} {backupType path err : String}
    (hc : (compressDirectory b w w.now.Format backupType).2 = Except.ok path)
    (hu : (uploadToS3 b w w.now.Format backupType path).2 = some err) :
    Run b w backupType =
      ([Event.log Level.Info "Beginning backup", Event.log Level.Info "Compressing directory"] ++
        (compressDirectory b w w.now.Format backupType).1 ++
        [Event.log Level.Info "Uploading to S3"] ++
        (uploadToS3 b w w.now.Format backupType path).1 ++
        [Event.log Level.Error ("failed to upload to S3: error = " ++ err)],
        Ctl.ret ()) := by
  rcases hc' : compressDirectory b w w.now.Format backupType with ⟨t₁, r⟩
  rw [hc'] at hc
  simp only at hc
  subst hc
  rcases hu' : uploadToS3 b w w.now.Format backupType path with ⟨t₃, r⟩
  rw [hu'] at hu
  simp only at hu
  subst hu
  simp only [Run, hc', hu']

theorem Run_prune_returns {b : Backup} {w : World} {backupType path : String}
    {perr : Option String}
    (hc : (compressDirectory b w w.now.Format backupType).2 = Except.ok path)
    (hu : (uploadToS3 b w w.now.Format backupType path).2 = none)
    (hp : (pruneS3 b w backupType).2 = Ctl.ret perr) :
    Run b w backupType =
      (tracePruned b w backupType path ++
        reportErr Level.Error "failed to prune old backups from S3: error = " perr ++
        [Event.log Level.Info "Removing temporary backup directory"] ++
        (removeBackupDirectory b w).1 ++
        reportErr Level.Warn "failed to delete backup directory: error = "
          (removeBackupDirectory b w).2 ++
        [backupComplete], Ctl.ret ()) := by
  rcases hc' : compressDirectory b w w.now.Format backupType with ⟨t₁, r⟩
  rw [hc'] at hc
  simp only at hc
  subst hc
  rcases hu' : uploadToS3 b w w.now.Format backupType path with ⟨t₃, r⟩
  rw [hu'] at hu
  simp only at hu
  subst hu
  rcases hp' : pruneS3 b w backupType with ⟨t₅, r⟩
  rw [hp'] at hp
  simp only at hp
  subst hp
  simp only [Run, tracePruned, hc', hu', hp', backupComplete]

theorem Run_prune_exits {b : Backup} {w : World} {backupType path : String} {code : Nat}
    (hc : (compressDirectory b w w.now.Format backupType).2 = Except.ok path)
    (hu : (uploadToS3 b w w.now.Format backupType path).2 = none)
    (hp : (pruneS3 b w backupType).2 = Ctl.exit code) :
    Run b w backupType = (tracePruned b w backupType path, Ctl.exit code) := by
  rcases hc' : compressDirectory b w w.now.Format backupType with ⟨t₁, r⟩
  rw [hc'] at hc
  simp only at hc
  subst hc
  rcases hu' : uploadToS3 b w w.now.Format backupType path with ⟨t₃, r⟩
  rw [hu'] at hu
  simp only at hu
  subst hu
  rcases hp' : pruneS3 b w backupType with ⟨t₅, r⟩
  rw [hp'] at hp
  simp only at hp
  subst hp
  simp only [Run, tracePruned, hc', hu', hp', backupComplete]


/-! ## External effects of the stages -/

theorem later_closeWarn (what msg : String) (err : Option String) :
    (closeWarn what msg err).filter isLaterEffect = [] := by
  cases err <;> rfl

theorem later_addFile (b : Backup) (e : WalkEntry) :
    (addFile b e).1.filter isLaterEffect = [] := by
  unfold addFile
  cases e.openErr <;> cases e.statErr <;> cases e.headerErr <;> cases e.writeHeaderErr <;>
    cases e.copyErr <;> cases e.closeErr <;> rfl

theorem later_walkTree (b : Backup) (es : List WalkEntry) :
    (walkTree b es).1.filter isLaterEffect = [] := by
  induction es with
  | nil => rfl
  | cons e es ih =>
    unfold walkTree
    cases e.walkErr with
    | some err => rfl
    | none =>
      cases e.isDir with
      | true => simpa using ih
      | false =>
        have ha := later_addFile b e
        rcases h : addFile b e with ⟨t, r⟩
        rw [h] at ha
        simp only at ha
        cases r with
        | some err => simpa using ha
        | none => simp [List.filter_append, ha, ih]

/-- The Archive stage makes no call to the object store and does not remove
the temporary directory. -/
theorem later_compressDirectory (b : Backup) (w : World) (now backupType : String) :
    (compressDirectory b w now backupType).1.filter isLaterEffect = [] := by
  unfold compressDirectory
  cases w.openFileErr with
  | some err => rfl
  | none =>
    cases w.writeStringErr with
    | some err => rfl
    | none =>
      cases w.mkdirErr with
      | some err => rfl
      | none =>
        cases w.tempFile with
        | error err => rfl
        | ok name =>
          have hw := later_walkTree b w.walk
          rcases h : walkTree b w.walk with ⟨t, r⟩
          rw [h] at hw
          simp only at hw
          cases r <;>
            simp [List.filter_append, List.filter_cons, later_closeWarn, hw, isLaterEffect]

theorem isLaterEffect_of_prune {e : Event} (h : isPruneOrCleanupEffect e = true) :
    isLaterEffect e = true := by
  cases e <;> first | rfl | simp [isPruneOrCleanupEffect] at h

theorem pruneEffects_of_later {t : List Event} (h : t.filter isLaterEffect = []) :
    t.filter isPruneOrCleanupEffect = [] := by
  rw [List.filter_eq_nil_iff] at h ⊢
  intro a ha hp
  exact h a ha (isLaterEffect_of_prune hp)

/-- The Upload stage does not list or delete objects and does not remove the
temporary directory. -/
theorem pruneEffects_uploadToS3 (b : Backup) (w : World) (now backupType path : String) :
    (uploadToS3 b w now backupType path).1.filter isPruneOrCleanupEffect = [] := by
  unfold uploadToS3
  cases w.openErr <;> cases w.uploadErr <;> cases w.uploadCloseErr <;> rfl


/-! ## The failure policy of `Run` -/

theorem getLast?_snoc {α : Type} (l : List α) (a : α) : (l ++ [a]).getLast? = some a := by
  simp

/-- C3: in `Run`, for every backup type, if `compressDirectory` returns an
error the run returns after logging it, having entered no stage but Archive
and made no call to the object store nor removed the temporary directory; if
Archive succeeds and `uploadToS3` returns an error the run returns after
logging it, having entered Archive and Upload only and made no listing, no
delete and no removal. -/
theorem Run_stops_after_fatal_stage (b : Backup) (w : World) (backupType : String) :
    (∀ err, (compressDirectory b w w.now.Format backupType).2 = Except.error err →
      (Run b w backupType).2 = Ctl.ret () ∧
      stages (Run b w backupType).1 = ["compressDirectory"] ∧
      (Run b w backupType).1.filter isLaterEffect = [] ∧
      (Run b w backupType).1.getLast? =
        some (Event.log Level.Error ("failed to compress directory: error = " ++ err))) ∧
    (∀ path err, (compressDirectory b w w.now.Format backupType).2 = Except.ok path →
      (uploadToS3 b w w.now.Format backupType path).2 = some err →
      (Run b w backupType).2 = Ctl.ret () ∧
      stages (Run b w backupType).1 = ["compressDirectory", "uploadToS3"] ∧
      (Run b w backupType).1.filter isPruneOrCleanupEffect = [] ∧
      (Run b w backupType).1.getLast? =
        some (Event.log Level.Error ("failed to upload to S3: error = " ++ err))) := by
  refine ⟨fun err h => ?_, fun path err hc hu => ?_⟩
  · rw [Run_archive_error h]
    refine ⟨rfl, ?_, ?_, ?_⟩
    · simp [stages_append, stages_cons, stages_nil, stageOf, stages_compressDirectory]
    · simp [List.filter_append, List.filter_cons, later_compressDirectory, isLaterEffect]
    · exact getLast?_snoc _ _
  · rw [Run_upload_error hc hu]
    refine ⟨rfl, ?_, ?_, ?_⟩
    · simp [stages_append, stages_cons, stages_nil, stageOf, stages_compressDirectory,
        stages_uploadToS3]
    · simp [List.filter_append, List.filter_cons, pruneEffects_uploadToS3,
        pruneEffects_of_later (later_compressDirectory b w _ _), isPruneOrCleanupEffect]
    · exact getLast?_snoc _ _

/-- The only error `pruneS3` returns is the error of the batched delete. -/
theorem pruneS3_error_from_delete {b : Backup} {w : World} {backupType err : String}
    (h : (pruneS3 b w backupType).2 = Ctl.ret (some err)) :
    ∃ keys, Event.BatchDelete b.S3Bucket keys ∈ (pruneS3 b w backupType).1 ∧
      w.batchDelete b.S3Bucket keys = some err := by
  cases hl : w.listObjects b.S3Bucket (b.S3Path ++ "/" ++ backupType) with
  | error e => simp [pruneS3, getBucketObjects, hl] at h
  | ok K =>
    rw [pruneS3_listed hl] at h ⊢
    split_ifs at h ⊢ with h₁ h₂
    · simp at h
    · refine ⟨(sortReverse K).drop (numberToKeep b backupType).toNat, ?_, ?_⟩
      · split <;> simp
      · split at h
        · rename_i e he
          simp only [Ctl.ret.injEq, Option.some.injEq] at h
          rw [he, h]
        · simp at h

/-- C4: in `Run`, when Archive and Upload succeed and `pruneS3` returns
(with an error or without), the run enters each of the four stages exactly
once, Cleanup included, logs "Backup complete" last and returns; an error of
`pruneS3` is the error of the batched delete and is logged, and an error of
the Cleanup stage is logged as a warning, neither stopping the run. -/
theorem Run_completes_after_prune_error (b : Backup) (w : World)
    (backupType path : String) (perr : Option String)
    (hc : (compressDirectory b w w.now.Format backupType).2 = Except.ok path)
    (hu : (uploadToS3 b w w.now.Format backupType path).2 = none)
    (hp : (pruneS3 b w backupType).2 = Ctl.ret perr) :
    (Run b w backupType).2 = Ctl.ret () ∧
    stages (Run b w backupType).1 =
      ["compressDirectory", "uploadToS3", "pruneS3", "removeBackupDirectory"] ∧
    (Run b w backupType).1.count (Event.call "removeBackupDirectory") = 1 ∧
    Event.RemoveAll (w.TempDir ++ "/backups") ∈ (Run b w backupType).1 ∧
    (Run b w backupType).1.getLast? = some backupComplete ∧
    (∀ err, perr = some err →
      Event.log Level.Error ("failed to prune old backups from S3: error = " ++ err) ∈
        (Run b w backupType).1 ∧
      ∃ keys, Event.BatchDelete b.S3Bucket keys ∈ (Run b w backupType).1 ∧
        w.batchDelete b.S3Bucket keys = some err) ∧
    (∀ cerr, w.removeAllErr = some cerr →
      Event.log Level.Warn ("failed to delete backup directory: error = " ++ cerr) ∈
        (Run b w backupType).1) := by
  rw [Run_prune_returns hc hu hp]
  have hst : stages (tracePruned b w backupType path ++
      reportErr Level.Error "failed to prune old backups from S3: error = " perr ++
      [Event.log Level.Info "Removing temporary backup directory"] ++
      (removeBackupDirectory b w).1 ++
      reportErr Level.Warn "failed to delete backup directory: error = "
        (removeBackupDirectory b w).2 ++ [backupComplete]) =
      ["compressDirectory", "uploadToS3", "pruneS3", "removeBackupDirectory"] := by
    simp [tracePruned, stages_append, stages_cons, stages_nil, stageOf,
      stages_compressDirectory, stages_uploadToS3, stages_pruneS3, stages_reportErr,
      stages_removeBackupDirectory, backupComplete]
  refine ⟨rfl, hst, ?_, ?_, ?_, ?_, ?_⟩
  · show List.count _ _ = 1
    rw [count_call_eq "removeBackupDirectory" (by decide), hst]
    decide
  · simp [removeBackupDirectory]
  · exact getLast?_snoc _ _
  · intro err he
    subst he
    obtain ⟨keys, hk, hd⟩ := pruneS3_error_from_delete hp
    refine ⟨?_, keys, ?_, hd⟩
    · simp [reportErr]
    · simp only [tracePruned, List.mem_append]
      exact Or.inl (Or.inl (Or.inl (Or.inl (Or.inl (Or.inr hk)))))
  · intro cerr he
    simp [removeBackupDirectory, he, reportErr]

/-- Whenever Archive and Upload succeed and the listing fails, the run ends in
`getBucketObjects` with exit status 1, after entering Prune and before
Cleanup. -/
theorem Run_exits_on_listing_error {b : Backup} {w : World} {backupType path err : String}
    (hc : (compressDirectory b w w.now.Format backupType).2 = Except.ok path)
    (hu : (uploadToS3 b w w.now.Format backupType path).2 = none)
    (hl : w.listObjects b.S3Bucket (b.S3Path ++ "/" ++ backupType) = Except.error err) :
    (Run b w backupType).2 = Ctl.exit 1 ∧
    stages (Run b w backupType).1 = ["compressDirectory", "uploadToS3", "pruneS3"] ∧
    (Run b w backupType).1.getLast? = some (Event.log Level.Fatal err) := by
  have hp : pruneS3 b w backupType =
      ([Event.call "pruneS3", Event.call "getBucketObjects",
        Event.ListObjects b.S3Bucket (b.S3Path ++ "/" ++ backupType)] ++
        [Event.log Level.Fatal err], Ctl.exit 1) := by
    simp [pruneS3, getBucketObjects, hl]
  have hp₂ : (pruneS3 b w backupType).2 = Ctl.exit 1 := by rw [hp]
  rw [Run_prune_exits hc hu hp₂]
  refine ⟨rfl, ?_, ?_⟩
  · simp [tracePruned, stages_append, stages_cons, stages_nil, stageOf,
      stages_compressDirectory, stages_uploadToS3, stages_pruneS3]
  · simp only [tracePruned, hp, ← List.append_assoc]
    exact getLast?_snoc _ _

/-- C2 (what the code does): in the run with the failing listing, Archive and
Upload succeed, `getBucketObjects` logs the error with `log.Fatal` and the
process exits with status 1: Cleanup is never entered, the temporary
directory is not removed and "Backup complete" is not logged. -/
theorem Run_listing_error_exits :
    (compressDirectory exampleBackup listErrorWorld listErrorWorld.now.Format "daily").2 =
      Except.ok "/tmp/backups/backup123.tar.gz" ∧
    (uploadToS3 exampleBackup listErrorWorld listErrorWorld.now.Format "daily"
      "/tmp/backups/backup123.tar.gz").2 = none ∧
    listErrorWorld.listObjects "bucket" "backups/daily" = Except.error "AccessDenied" ∧
    (Run exampleBackup listErrorWorld "daily").2 = Ctl.exit 1 ∧
    stages (Run exampleBackup listErrorWorld "daily").1 =
      ["compressDirectory", "uploadToS3", "pruneS3"] ∧
    Event.RemoveAll "/tmp/backups" ∉ (Run exampleBackup listErrorWorld "daily").1 ∧
    backupComplete ∉ (Run exampleBackup listErrorWorld "daily").1 ∧
    (Run exampleBackup listErrorWorld "daily").1.getLast? =
      some (Event.log Level.Fatal "AccessDenied") := by
  refine ⟨rfl, rfl, rfl, ?_, ?_, ?_, ?_, ?_⟩ <;> decide


/-- Witness for C1: the five keys listed out of order, type "daily" with
`DailyBackups = 3`; the request holds the keys at `T2` and `T1`. -/
theorem pruneS3_deletes_oldest_excess_witness :
    fiveKeys.Nodup ∧ 0 ≤ numberToKeep exampleBackup "daily" ∧
    scheduled (pruneS3 exampleBackup exampleWorld "daily").1 = [keyT2, keyT1] :=
  ⟨by decide, by decide,
    (pruneS3_deletes_oldest_excess exampleBackup exampleWorld "daily" fiveKeys rfl
      (by decide) (by decide)).2.2.2.2.2.2.2 keyT1 keyT2 keyT3 keyT4 keyT5
      (by decide) (by decide) (by decide) (by decide) (by decide) rfl rfl⟩

/-- Witness for C3: a data directory that cannot be read, and an upload that
times out. -/
theorem Run_stops_after_fatal_stage_witness :
    stages (Run exampleBackup archiveErrorWorld "daily").1 = ["compressDirectory"] ∧
    stages (Run exampleBackup uploadErrorWorld "daily").1 =
      ["compressDirectory", "uploadToS3"] :=
  ⟨((Run_stops_after_fatal_stage exampleBackup archiveErrorWorld "daily").1
      "permission denied" rfl).2.1,
    ((Run_stops_after_fatal_stage exampleBackup uploadErrorWorld "daily").2
      "/tmp/backups/backup123.tar.gz" "RequestTimeout" rfl rfl).2.1⟩

/-- Witness for C4: the batched delete and the directory removal both
fail. -/
theorem Run_completes_after_prune_error_witness :
    (pruneS3 exampleBackup deleteErrorWorld "daily").2 =
      Ctl.ret (some "BatchedDeleteIncomplete") ∧
    deleteErrorWorld.removeAllErr = some "directory not empty" ∧
    stages (Run exampleBackup deleteErrorWorld "daily").1 =
      ["compressDirectory", "uploadToS3", "pruneS3", "removeBackupDirectory"] ∧
    (Run exampleBackup deleteErrorWorld "daily").1.getLast? = some backupComplete :=
  ⟨by decide, rfl,
    (Run_completes_after_prune_error exampleBackup deleteErrorWorld "daily"
      "/tmp/backups/backup123.tar.gz" (some "BatchedDeleteIncomplete") rfl rfl
      (by decide)).2.1,
    (Run_completes_after_prune_error exampleBackup deleteErrorWorld "daily"
      "/tmp/backups/backup123.tar.gz" (some "BatchedDeleteIncomplete") rfl rfl
      (by decide)).2.2.2.2.1⟩

/-! ## The retention count and the no-op prune -/

theorem numberToKeep_other (b : Backup) (t : String) (h₁ : t ≠ "daily") (h₂ : t ≠ "weekly")
    (h₃ : t ≠ "monthly") : numberToKeep b t = b.HourlyBackups := by
  simp [numberToKeep, h₁, h₂, h₃]

/-- C5: for every backup-type string, listing `K` and world, `pruneS3` works
with the count `N` of the type: `DailyBackups` for "daily", `WeeklyBackups`
for "weekly", `MonthlyBackups` for "monthly" and `HourlyBackups` for
"hourly" and for every other string.  With `N ≥ 0` the keys it asks to
delete are the descending keys beyond the first `N`, `max 0 (|K| - N)` of
them, and it returns no error when `|K| ≤ N` and otherwise what the batched
delete of those keys returns: an unrecognized string adds no error. -/
theorem pruneS3_count_by_type (b : Backup) (w : World) (backupType : String)
    (K : List String) (N : Int)
    (hlist : w.listObjects b.S3Bucket (b.S3Path ++ "/" ++ backupType) = Except.ok K)
    (htype : (backupType = "daily" ∧ N = b.DailyBackups) ∨
      (backupType = "weekly" ∧ N = b.WeeklyBackups) ∨
      (backupType = "monthly" ∧ N = b.MonthlyBackups) ∨
      (backupType ≠ "daily" ∧ backupType ≠ "weekly" ∧ backupType ≠ "monthly" ∧
        N = b.HourlyBackups))
    (hN : 0 ≤ N) :
    scheduled (pruneS3 b w backupType).1 = (sortReverse K).drop N.toNat ∧
    ((scheduled (pruneS3 b w backupType).1).length : Int) = max 0 ((K.length : Int) - N) ∧
    (pruneS3 b w backupType).2 = Ctl.ret
      (if (K.length : Int) ≤ N then none
       else w.batchDelete b.S3Bucket ((sortReverse K).drop N.toNat)) := by
  have hcount : numberToKeep b backupType = N := by
    rcases htype with ⟨rfl, rfl⟩ | ⟨rfl, rfl⟩ | ⟨rfl, rfl⟩ | ⟨h₁, h₂, h₃, rfl⟩
    · rfl
    · rfl
    · rfl
    · exact numberToKeep_other b backupType h₁ h₂ h₃
  have hs := (pruneS3_scheduled hlist (by rw [hcount]; exact hN)).1
  rw [hcount] at hs
  refine ⟨hs, ?_, ?_⟩
  · rw [hs, List.length_drop, sortReverse_length]
    omega
  · rw [pruneS3_listed hlist, hcount, sortReverse_length]
    split_ifs with h₄ h₅
    · rfl
    · omega
    · split <;> simp_all

/-- Witness for C5: five keys listed and the counts 2 (hourly), 3 (daily),
4 (weekly) and 1 (monthly): each type deletes beyond its own count, and
"yearly" beyond the hourly count, without an error. -/
theorem pruneS3_count_by_type_witness :
    scheduled (pruneS3 fourCounts exampleWorld "daily").1 = [keyT2, keyT1] ∧
    scheduled (pruneS3 fourCounts exampleWorld "weekly").1 = [keyT1] ∧
    scheduled (pruneS3 fourCounts exampleWorld "monthly").1 =
      [keyT4, keyT3, keyT2, keyT1] ∧
    scheduled (pruneS3 fourCounts exampleWorld "hourly").1 = [keyT3, keyT2, keyT1] ∧
    scheduled (pruneS3 fourCounts exampleWorld "yearly").1 = [keyT3, keyT2, keyT1] ∧
    (pruneS3 fourCounts exampleWorld "yearly").2 = Ctl.ret none :=
  ⟨(pruneS3_count_by_type fourCounts exampleWorld "daily" fiveKeys 3 rfl
      (Or.inl ⟨rfl, rfl⟩) (by decide)).1.trans (by decide),
    (pruneS3_count_by_type fourCounts exampleWorld "weekly" fiveKeys 4 rfl
      (Or.inr (Or.inl ⟨rfl, rfl⟩)) (by decide)).1.trans (by decide),
    (pruneS3_count_by_type fourCounts exampleWorld "monthly" fiveKeys 1 rfl
      (Or.inr (Or.inr (Or.inl ⟨rfl, rfl⟩))) (by decide)).1.trans (by decide),
    (pruneS3_count_by_type fourCounts exampleWorld "hourly" fiveKeys 2 rfl
      (Or.inr (Or.inr (Or.inr ⟨by decide, by decide, by decide, rfl⟩))) (by decide)).1.trans
      (by decide),
    (pruneS3_count_by_type fourCounts exampleWorld "yearly" fiveKeys 2 rfl
      (Or.inr (Or.inr (Or.inr ⟨by decide, by decide, by decide, rfl⟩))) (by decide)).1.trans
      (by decide),
    (pruneS3_count_by_type fourCounts exampleWorld "yearly" fiveKeys 2 rfl
      (Or.inr (Or.inr (Or.inr ⟨by decide, by decide, by decide, rfl⟩))) (by decide)).2.2.trans
      (by decide)⟩

theorem remaining_length_le (K : List String) (n : Nat) :
    (remaining K ((sortReverse K).drop n)).length ≤ n := by
  have hp := sortReverse_perm K
  unfold remaining
  rw [← (hp.filter _).length_eq]
  conv_lhs => rw [← List.take_append_drop n (sortReverse K)]
  rw [List.take_append_drop, ← List.take_append_drop n (sortReverse K), List.filter_append,
    List.take_append_drop]
  have h2 : (List.drop n (sortReverse K)).filter
      (fun k => decide (k ∉ (sortReverse K).drop n)) = [] := by
    rw [List.filter_eq_nil_iff]
    intro a ha
    simpa using ha
  rw [h2, List.append_nil]
  calc (List.filter _ (List.take n (sortReverse K))).length
      ≤ (List.take n (sortReverse K)).length := List.length_filter_le _ _
    _ ≤ n := by rw [List.length_take]; exact Nat.min_le_left _ _

/-- C9: for a listing `K` with `|K| ≤ N` (the empty listing included),
`pruneS3` issues no delete request and returns no error; and when the
listing of a later prune returns the keys a prune left (the listed keys not
in its delete request), whatever their number before, that later prune
issues no delete request and returns no error. -/
theorem pruneS3_noop_within_retention (b : Backup) (backupType : String) :
    (∀ (w : World) (K : List String),
      w.listObjects b.S3Bucket (b.S3Path ++ "/" ++ backupType) = Except.ok K →
      (K.length : Int) ≤ numberToKeep b backupType →
      (pruneS3 b w backupType).2 = Ctl.ret none ∧
      deleteRequests (pruneS3 b w backupType).1 = 0 ∧
      scheduled (pruneS3 b w backupType).1 = []) ∧
    (∀ (w w' : World) (K : List String),
      w.listObjects b.S3Bucket (b.S3Path ++ "/" ++ backupType) = Except.ok K →
      0 ≤ numberToKeep b backupType →
      w'.listObjects b.S3Bucket (b.S3Path ++ "/" ++ backupType) =
        Except.ok (remaining K (scheduled (pruneS3 b w backupType).1)) →
      (pruneS3 b w' backupType).2 = Ctl.ret none ∧
      deleteRequests (pruneS3 b w' backupType).1 = 0 ∧
      scheduled (pruneS3 b w' backupType).1 = []) := by
  have key : ∀ (w : World) (K : List String),
      w.listObjects b.S3Bucket (b.S3Path ++ "/" ++ backupType) = Except.ok K →
      (K.length : Int) ≤ numberToKeep b backupType →
      (pruneS3 b w backupType).2 = Ctl.ret none ∧
      deleteRequests (pruneS3 b w backupType).1 = 0 ∧
      scheduled (pruneS3 b w backupType).1 = [] := by
    intro w K hl hle
    rw [pruneS3_listed hl, if_pos (by rw [sortReverse_length]; exact hle)]
    exact ⟨rfl, rfl, rfl⟩
  refine ⟨key, ?_⟩
  intro w w' K hl hN hl'
  apply key w' _ hl'
  rw [(pruneS3_scheduled hl hN).1]
  have := remaining_length_le K (numberToKeep b backupType).toNat
  omega

/-- Witness for C9: five keys under "hourly" with `HourlyBackups = 24`, and
the three keys a "daily" prune of the five left. -/
theorem pruneS3_noop_within_retention_witness :
    deleteRequests (pruneS3 exampleBackup exampleWorld "hourly").1 = 0 ∧
    remaining fiveKeys (scheduled (pruneS3 exampleBackup exampleWorld "daily").1) =
      [keyT5, keyT3, keyT4] ∧
    deleteRequests (pruneS3 exampleBackup
      (withListing exampleWorld [keyT5, keyT3, keyT4]) "daily").1 = 0 :=
  ⟨((pruneS3_noop_within_retention exampleBackup "hourly").1 exampleWorld fiveKeys rfl
      (by decide)).2.1,
    by decide,
    ((pruneS3_noop_within_retention exampleBackup "daily").2 exampleWorld
      (withListing exampleWorld [keyT5, keyT3, keyT4]) fiveKeys rfl (by decide)
      (congrArg Except.ok (by decide))).2.1⟩

/-! ## The calendar of package `time` -/

/-- The day count split the way `absYearDay` splits it: 400 year cycles,
centuries, 4 year cycles, years and the day of the year; the part below each
level is shorter than the level. -/
theorem yearDay_split (abs : Nat) :
    ∃ a b c e : Nat, b ≤ 3 ∧ c ≤ 24 ∧ e ≤ 3 ∧
      (absYearDay abs).1 = 400 * a + 100 * b + 4 * c + e ∧
      abs / 86400 = 146097 * a + 36524 * b + 1461 * c + 365 * e + (absYearDay abs).2 ∧
      (absYearDay abs).2 < 365 + (if e = 3 ∧ (c < 24 ∨ b = 3) then 1 else 0) ∧
      (e < 3 → (absYearDay abs).2 < 365) ∧
      365 * e + (absYearDay abs).2 < 1461 ∧
      (b < 3 → 1461 * c + 365 * e + (absYearDay abs).2 < 36524) ∧
      36524 * b + 1461 * c + 365 * e + (absYearDay abs).2 < 146097 := by
  simp only [absYearDay, secondsPerDay, daysPer400Years, daysPer100Years, daysPer4Years]
  generalize abs / 86400 = D
  generalize hq : D / (365 * 400 + 97) = a
  generalize hr : D - (365 * 400 + 97) * a = r1
  have hr1 : r1 < 146097 ∧ D = 146097 * a + r1 := by omega
  generalize hq100 : r1 / (365 * 100 + 24) = q100
  have hq100b : q100 ≤ 4 := by omega
  generalize hb : q100 - q100 / 4 = b
  have hb3 : b ≤ 3 := by omega
  generalize hr2 : r1 - (365 * 100 + 24) * b = r2
  have hr2b : r1 = 36524 * b + r2 ∧ r2 ≤ 36524 ∧ (r2 = 36524 → b = 3) := by omega
  generalize hc : r2 / (365 * 4 + 1) = c
  have hc24 : c ≤ 24 := by omega
  generalize hr3 : r2 - (365 * 4 + 1) * c = r3
  have hr3b : r2 = 1461 * c + r3 ∧ r3 < 1461 := by omega
  generalize hq1 : r3 / 365 = q1
  have hq1b : q1 ≤ 4 := by omega
  generalize he : q1 - q1 / 4 = e
  have he3 : e ≤ 3 := by omega
  refine ⟨a, b, c, e, hb3, hc24, he3, rfl, ?_, ?_, ?_, ?_, ?_, ?_⟩
  · omega
  · split_ifs with h <;> omega
  · omega
  · omega
  · omega
  · omega

/-- A later day has a later year, or the same year and a later day of the
year. -/
theorem yearDay_mono {abs₁ abs₂ : Nat} (h : abs₁ / 86400 < abs₂ / 86400) :
    (absYearDay abs₁).1 < (absYearDay abs₂).1 ∨
      ((absYearDay abs₁).1 = (absYearDay abs₂).1 ∧
        (absYearDay abs₁).2 < (absYearDay abs₂).2) := by
  obtain ⟨a₁, b₁, c₁, e₁, hb₁, hc₁, he₁, hy₁, hD₁, -, o₁, p₁, q₁, r₁⟩ := yearDay_split abs₁
  obtain ⟨a₂, b₂, c₂, e₂, hb₂, hc₂, he₂, hy₂, hD₂, -, o₂, p₂, q₂, r₂⟩ := yearDay_split abs₂
  rw [hy₁, hy₂]
  rw [hD₁, hD₂] at h
  generalize (absYearDay abs₁).2 = d₁ at *
  generalize (absYearDay abs₂).2 = d₂ at *
  clear hy₁ hy₂ hD₁ hD₂
  rcases Nat.lt_trichotomy a₁ a₂ with ha | ha | ha
  · left; omega
  · subst ha
    rcases Nat.lt_trichotomy b₁ b₂ with hb | hb | hb
    · left; omega
    · subst hb
      rcases Nat.lt_trichotomy c₁ c₂ with hc | hc | hc
      · left; omega
      · subst hc
        rcases Nat.lt_trichotomy e₁ e₂ with he | he | he
        · left; omega
        · subst he
          right; omega
        · exfalso; omega
      · exfalso; omega
    · exfalso; omega
  · exfalso; omega

theorem yearDay_same {abs₁ abs₂ : Nat} (h : abs₁ / 86400 = abs₂ / 86400) :
    absYearDay abs₁ = absYearDay abs₂ := by
  simp only [absYearDay, secondsPerDay, h]

theorem yday_le (abs : Nat) : (absYearDay abs).2 ≤ 365 := by
  obtain ⟨a, b, c, e, _, _, _, _, _, hd, _⟩ := yearDay_split abs
  split_ifs at hd <;> omega


set_option maxRecDepth 100000 in
theorem monthDay_step : ∀ leap : Bool, ∀ d : Nat, d < 365 →
    32 * (monthDay leap d).1 + (monthDay leap d).2 <
      32 * (monthDay leap (d + 1)).1 + (monthDay leap (d + 1)).2 := by
  decide

set_option maxRecDepth 100000 in
theorem monthDay_bounds : ∀ leap : Bool, ∀ d : Nat, d < 366 →
    (monthDay leap d).1 < 100 ∧ (monthDay leap d).2 < 32 := by
  decide


/-- Within a year, a later day of the year has a later month, or the same
month and a later day of the month. -/
theorem monthDay_mono (leap : Bool) {d₁ d₂ : Nat} (h : d₁ < d₂) (h₂ : d₂ ≤ 365) :
    (monthDay leap d₁).1 < (monthDay leap d₂).1 ∨
      ((monthDay leap d₁).1 = (monthDay leap d₂).1 ∧
        (monthDay leap d₁).2 < (monthDay leap d₂).2) := by
  have key : 32 * (monthDay leap d₁).1 + (monthDay leap d₁).2 <
      32 * (monthDay leap d₂).1 + (monthDay leap d₂).2 := by
    induction d₂ with
    | zero => omega
    | succ n ih =>
      have hs := monthDay_step leap n (by omega)
      rcases Nat.lt_or_ge d₁ n with hlt | hge
      · exact Nat.lt_trans (ih hlt (by omega)) hs
      · have : d₁ = n := by omega
        subst this
        exact hs
  have b₁ := (monthDay_bounds leap d₁ (by omega)).2
  have b₂ := (monthDay_bounds leap d₂ (by omega)).2
  omega

/-- Within a day, a later second has a later hour, or the same hour and a
later minute, or the same hour and minute and a later second. -/
theorem absClock_mono {abs₁ abs₂ : Nat} (hd : abs₁ / 86400 = abs₂ / 86400) (h : abs₁ < abs₂) :
    (absClock abs₁).1 < (absClock abs₂).1 ∨
      ((absClock abs₁).1 = (absClock abs₂).1 ∧
        ((absClock abs₁).2.1 < (absClock abs₂).2.1 ∨
          ((absClock abs₁).2.1 = (absClock abs₂).2.1 ∧
            (absClock abs₁).2.2 < (absClock abs₂).2.2))) := by
  simp only [absClock, secondsPerDay]
  omega

theorem absClock_bounds (abs : Nat) :
    (absClock abs).1 < 100 ∧ (absClock abs).2.1 < 100 ∧ (absClock abs).2.2 < 100 := by
  simp only [absClock, secondsPerDay]
  omega


/-! ## The text of a timestamp -/

theorem digitChar_lt {a b : Nat} (h : a % 10 < b % 10) : digitChar a < digitChar b := by
  unfold digitChar
  have hb : b % 10 < 10 := Nat.mod_lt _ (by decide)
  generalize a % 10 = i at h
  generalize b % 10 = j at h hb
  interval_cases j <;> interval_cases i <;> decide

theorem digitChar_congr {a b : Nat} (h : a % 10 = b % 10) : digitChar a = digitChar b := by
  unfold digitChar
  rw [h]

/-- Two digits: the order of the numbers is the order of the texts. -/
theorem two_digits_lt {a b : Nat} (h : a < b) (hb : b < 100) (x y : List Char) :
    digitChar (a / 10) :: digitChar a :: x < digitChar (b / 10) :: digitChar b :: y := by
  by_cases h₁ : a / 10 < b / 10
  · exact List.Lex.rel (digitChar_lt (by omega))
  · rw [digitChar_congr (show a / 10 % 10 = b / 10 % 10 by omega)]
    exact List.Lex.cons (List.Lex.rel (digitChar_lt (by omega)))

/-- Four digits: the order of the numbers is the order of the texts. -/
theorem four_digits_lt {a b : Nat} (h : a < b) (hb : b < 10000) (x y : List Char) :
    digitChar (a / 1000) :: digitChar (a / 100) :: digitChar (a / 10) :: digitChar a :: x <
      digitChar (b / 1000) :: digitChar (b / 100) :: digitChar (b / 10) :: digitChar b :: y := by
  by_cases h₁ : a / 1000 < b / 1000
  · exact List.Lex.rel (digitChar_lt (by omega))
  · rw [digitChar_congr (show a / 1000 % 10 = b / 1000 % 10 by omega)]
    refine List.Lex.cons ?_
    by_cases h₂ : a / 100 < b / 100
    · exact List.Lex.rel (digitChar_lt (by omega))
    · rw [digitChar_congr (show a / 100 % 10 = b / 100 % 10 by omega)]
      refine List.Lex.cons ?_
      by_cases h₃ : a / 10 < b / 10
      · exact List.Lex.rel (digitChar_lt (by omega))
      · rw [digitChar_congr (show a / 10 % 10 = b / 10 % 10 by omega)]
        exact List.Lex.cons (List.Lex.rel (digitChar_lt (by omega)))

theorem appendInt_two (n : Nat) (h : n < 100) :
    appendInt (n : Int) 2 = [digitChar (n / 10), digitChar n] := by
  have h0 : ¬ ((n : Int) < 0) := by omega
  simp [appendInt, h, h0]

theorem appendInt_four (n : Nat) (h : n < 10000) :
    appendInt (n : Int) 4 =
      [digitChar (n / 1000), digitChar (n / 100), digitChar (n / 10), digitChar n] := by
  have h0 : ¬ ((n : Int) < 0) := by omega
  simp [appendInt, h, h0]

/-- The text of a timestamp whose fields have the digits of the layout. -/
theorem formatStamp_digits {Y M D h m s : Nat} (hY : Y < 10000) (hM : M < 100) (hD : D < 100)
    (hh : h < 100) (hm : m < 100) (hs : s < 100) (x : List Char) :
    formatStamp (Y : Int) M D h m s ++ x =
      digitChar (Y / 1000) :: digitChar (Y / 100) :: digitChar (Y / 10) :: digitChar Y :: '-' ::
      digitChar (M / 10) :: digitChar M :: '-' :: digitChar (D / 10) :: digitChar D :: 'T' ::
      digitChar (h / 10) :: digitChar h :: ':' :: digitChar (m / 10) :: digitChar m :: ':' ::
      digitChar (s / 10) :: digitChar s :: 'Z' :: x := by
  simp [formatStamp, appendInt_four Y hY, appendInt_two M hM, appendInt_two D hD,
    appendInt_two h hh, appendInt_two m hm, appendInt_two s hs]

/-- Timestamps of the layout compare as their fields do, whatever follows
them. -/
theorem formatStamp_lt {Y₁ M₁ D₁ h₁ m₁ s₁ Y₂ M₂ D₂ h₂ m₂ s₂ : Nat}
    (hY₁ : Y₁ < 10000) (hM₁ : M₁ < 100) (hD₁ : D₁ < 100)
    (hh₁ : h₁ < 100) (hm₁ : m₁ < 100) (hs₁ : s₁ < 100)
    (hY₂ : Y₂ < 10000) (hM₂ : M₂ < 100) (hD₂ : D₂ < 100)
    (hh₂ : h₂ < 100) (hm₂ : m₂ < 100) (hs₂ : s₂ < 100)
    (hlex : Y₁ < Y₂ ∨ (Y₁ = Y₂ ∧ (M₁ < M₂ ∨ (M₁ = M₂ ∧ (D₁ < D₂ ∨ (D₁ = D₂ ∧
      (h₁ < h₂ ∨ (h₁ = h₂ ∧ (m₁ < m₂ ∨ (m₁ = m₂ ∧ s₁ < s₂))))))))))
    (x y : List Char) :
    formatStamp (Y₁ : Int) M₁ D₁ h₁ m₁ s₁ ++ x < formatStamp (Y₂ : Int) M₂ D₂ h₂ m₂ s₂ ++ y := by
  rw [formatStamp_digits hY₁ hM₁ hD₁ hh₁ hm₁ hs₁, formatStamp_digits hY₂ hM₂ hD₂ hh₂ hm₂ hs₂]
  rcases hlex with hY | ⟨rfl, hlex⟩
  · exact four_digits_lt hY hY₂ _ _
  refine List.Lex.cons (List.Lex.cons (List.Lex.cons (List.Lex.cons (List.Lex.cons ?_))))
  rcases hlex with hM | ⟨rfl, hlex⟩
  · exact two_digits_lt hM hM₂ _ _
  refine List.Lex.cons (List.Lex.cons (List.Lex.cons ?_))
  rcases hlex with hD | ⟨rfl, hlex⟩
  · exact two_digits_lt hD hD₂ _ _
  refine List.Lex.cons (List.Lex.cons (List.Lex.cons ?_))
  rcases hlex with hh | ⟨rfl, hlex⟩
  · exact two_digits_lt hh hh₂ _ _
  refine List.Lex.cons (List.Lex.cons (List.Lex.cons ?_))
  rcases hlex with hm | ⟨rfl, hs⟩
  · exact two_digits_lt hm hm₂ _ _
  refine List.Lex.cons (List.Lex.cons (List.Lex.cons ?_))
  exact two_digits_lt hs hs₂ _ _


/-! ## The years 0000 to 9999 -/

theorem absDate_year (abs : Nat) :
    (absDate abs).1 = ((absYearDay abs).1 : Int) + absoluteZeroYear := rfl

theorem absYearDay_year0 : absYearDay 9223371966548102400 = (292277022399, 0) := by
  decide

theorem absYearDay_year10000 : absYearDay 9223372282117622400 = (292277032399, 0) := by
  decide

/-- The year is not negative from 0000-01-01T00:00:00Z on, and only then. -/
theorem year_nonneg_iff (abs : Nat) : 0 ≤ (absDate abs).1 ↔ 9223371966548102400 ≤ abs := by
  rw [absDate_year]
  unfold absoluteZeroYear
  constructor
  · intro h
    by_contra hlt
    have hd : abs / 86400 < 9223371966548102400 / 86400 := by omega
    have := yearDay_mono hd
    rw [absYearDay_year0] at this
    omega
  · intro h
    rcases Nat.lt_or_ge (9223371966548102400 / 86400) (abs / 86400) with hd | hd
    · have := yearDay_mono hd
      rw [absYearDay_year0] at this
      omega
    · have := yearDay_same (show 9223371966548102400 / 86400 = abs / 86400 by omega)
      rw [absYearDay_year0] at this
      rw [← this]
      omega

/-- The year is at most 9999 before 10000-01-01T00:00:00Z, and only then. -/
theorem year_le_9999_iff (abs : Nat) : (absDate abs).1 ≤ 9999 ↔ abs < 9223372282117622400 := by
  rw [absDate_year]
  unfold absoluteZeroYear
  constructor
  · intro h
    by_contra hge
    rcases Nat.lt_or_ge (9223372282117622400 / 86400) (abs / 86400) with hd | hd
    · have := yearDay_mono hd
      rw [absYearDay_year10000] at this
      omega
    · have := yearDay_same (show 9223372282117622400 / 86400 = abs / 86400 by omega)
      rw [absYearDay_year10000] at this
      rw [← this] at h
      omega
  · intro h
    have hd : abs / 86400 < 9223372282117622400 / 86400 := by omega
    have := yearDay_mono hd
    rw [absYearDay_year10000] at this
    omega

/-- For an instant of the years 0000 to 9999 the conversion to absolute
seconds does not wrap. -/
theorem abs_of_years {t : Time} (h₀ : 0 ≤ t.Year) (h₁ : t.Year ≤ 9999) :
    (t.abs : Int) = t.sec + 9223372028715321600 ∧
      9223371966548102400 ≤ t.abs ∧ t.abs < 9223372282117622400 := by
  have a₀ := (year_nonneg_iff t.abs).mp h₀
  have a₁ := (year_le_9999_iff t.abs).mp h₁
  refine ⟨?_, a₀, a₁⟩
  have hi := t.int64
  unfold Time.abs unixToAbsolute at a₀ a₁ ⊢
  norm_num at a₀ a₁ ⊢
  omega


theorem absDate_month (abs : Nat) :
    (absDate abs).2.1 = (monthDay (isLeap (absDate abs).1) (absYearDay abs).2).1 := rfl

theorem absDate_day (abs : Nat) :
    (absDate abs).2.2 = (monthDay (isLeap (absDate abs).1) (absYearDay abs).2).2 := rfl

/-- The fields of the date and the clock of a later second come later in
the order year, month, day, hour, minute, second. -/
theorem fields_mono {abs₁ abs₂ : Nat} (h : abs₁ < abs₂) (h₀ : 0 ≤ (absDate abs₁).1) :
    (absDate abs₁).1.toNat < (absDate abs₂).1.toNat ∨ ((absDate abs₁).1.toNat =
      (absDate abs₂).1.toNat ∧ ((absDate abs₁).2.1 < (absDate abs₂).2.1 ∨ ((absDate abs₁).2.1 =
      (absDate abs₂).2.1 ∧ ((absDate abs₁).2.2 < (absDate abs₂).2.2 ∨ ((absDate abs₁).2.2 =
      (absDate abs₂).2.2 ∧ ((absClock abs₁).1 < (absClock abs₂).1 ∨ ((absClock abs₁).1 =
      (absClock abs₂).1 ∧ ((absClock abs₁).2.1 < (absClock abs₂).2.1 ∨ ((absClock abs₁).2.1 =
      (absClock abs₂).2.1 ∧ (absClock abs₁).2.2 < (absClock abs₂).2.2))))))))) := by
  rcases Nat.lt_or_ge (abs₁ / 86400) (abs₂ / 86400) with hd | hd
  · rcases yearDay_mono hd with hy | ⟨hy, hyd⟩
    · left
      rw [absDate_year] at h₀
      rw [absDate_year, absDate_year]
      omega
    · right
      have hyear : (absDate abs₁).1 = (absDate abs₂).1 := by
        rw [absDate_year, absDate_year, hy]
      refine ⟨by rw [hyear], ?_⟩
      rw [absDate_month, absDate_month, absDate_day, absDate_day, hyear]
      rcases monthDay_mono (isLeap (absDate abs₂).1) hyd (yday_le abs₂) with hm | ⟨hm, hdd⟩
      · exact Or.inl hm
      · exact Or.inr ⟨hm, Or.inl hdd⟩
  · have hsame : abs₁ / 86400 = abs₂ / 86400 := by
      have : abs₁ / 86400 ≤ abs₂ / 86400 := Nat.div_le_div_right (Nat.le_of_lt h)
      omega
    have hdate : absDate abs₁ = absDate abs₂ := by
      simp only [absDate, yearDay_same hsame]
    right
    refine ⟨by rw [hdate], Or.inr ⟨by rw [hdate], Or.inr ⟨by rw [hdate], ?_⟩⟩⟩
    exact absClock_mono hsame h

/-- Within the years 0000 to 9999 the text of a later second is greater,
whatever follows the two texts. -/
theorem Format_lt {t₁ t₂ : Time}
    (hy₁ : 0 ≤ t₁.Year ∧ t₁.Year ≤ 9999) (hy₂ : 0 ≤ t₂.Year ∧ t₂.Year ≤ 9999)
    (h : t₁.sec < t₂.sec) (x y : List Char) :
    t₁.Format.toList ++ x < t₂.Format.toList ++ y := by
  obtain ⟨e₁, -, -⟩ := abs_of_years hy₁.1 hy₁.2
  obtain ⟨e₂, -, -⟩ := abs_of_years hy₂.1 hy₂.2
  have habs : t₁.abs < t₂.abs := by omega
  unfold Time.Year at hy₁ hy₂
  have c₁ : (absDate t₁.abs).1 = (((absDate t₁.abs).1.toNat : Nat) : Int) :=
    (Int.toNat_of_nonneg hy₁.1).symm
  have c₂ : (absDate t₂.abs).1 = (((absDate t₂.abs).1.toNat : Nat) : Int) :=
    (Int.toNat_of_nonneg hy₂.1).symm
  have b₁ := monthDay_bounds (isLeap (absDate t₁.abs).1) (absYearDay t₁.abs).2
    (Nat.lt_succ_of_le (yday_le _))
  have b₂ := monthDay_bounds (isLeap (absDate t₂.abs).1) (absYearDay t₂.abs).2
    (Nat.lt_succ_of_le (yday_le _))
  have k₁ := absClock_bounds t₁.abs
  have k₂ := absClock_bounds t₂.abs
  show formatStamp (absDate t₁.abs).1 _ _ _ _ _ ++ x < formatStamp (absDate t₂.abs).1 _ _ _ _ _ ++ y
  rw [c₁, c₂]
  refine formatStamp_lt (by omega) ?_ ?_ k₁.1 k₁.2.1 k₁.2.2 (by omega) ?_ ?_ k₂.1 k₂.2.1 k₂.2.2
    ?_ x y
  · rw [absDate_month]; exact b₁.1
  · rw [absDate_day]; omega
  · rw [absDate_month]; exact b₂.1
  · rw [absDate_day]; omega
  · exact fields_mono habs hy₁.1


/-! ## The remote key -/

theorem uploadPath_toList (b : Backup) (now backupType : String) :
    (uploadPath b now backupType).toList =
      (b.S3Path.toList ++ '/' :: backupType.toList ++ ['/']) ++
        (now.toList ++ ".tar.gz".toList) := by
  simp [uploadPath, String.toList]

/-- Within the years 0000 to 9999 the key of a later second is greater. -/
theorem uploadPath_lt (b : Backup) (backupType : String) {t₁ t₂ : Time}
    (hy₁ : 0 ≤ t₁.Year ∧ t₁.Year ≤ 9999) (hy₂ : 0 ≤ t₂.Year ∧ t₂.Year ≤ 9999)
    (h : t₁.sec < t₂.sec) :
    strLess (uploadPath b t₁.Format backupType) (uploadPath b t₂.Format backupType) := by
  unfold strLess
  rw [uploadPath_toList, uploadPath_toList]
  exact List.Lex.append_left _ (Format_lt hy₁ hy₂ h _ _) _

/-- Instants at least a second apart have different seconds. -/
theorem sec_lt_of_second_apart {t₁ t₂ : Time}
    (h : t₁.UnixNano + 1000000000 ≤ t₂.UnixNano) : t₁.sec < t₂.sec := by
  unfold Time.UnixNano at h
  have := t₂.nsec.isLt
  omega

theorem sortReverse_pair {k₁ k₂ : String} (h : strLess k₁ k₂) :
    sortReverse [k₁, k₂] = [k₂, k₁] ∧ sortReverse [k₂, k₁] = [k₂, k₁] := by
  have hs : List.Sorted revLE [k₂, k₁] := by
    simp only [List.Sorted, List.pairwise_cons, List.mem_singleton, forall_eq,
      List.not_mem_nil, IsEmpty.forall_iff, implies_true, List.Pairwise.nil, and_true]
    exact (strLess_iff_revLE.mp h).1
  exact ⟨(sortReverse_unique (List.Perm.swap k₁ k₂ []) hs).symm,
    (sortReverse_unique (List.Perm.refl _) hs).symm⟩

/-! ## The delete requests of a run -/

theorem scheduled_append (t₁ t₂ : List Event) :
    scheduled (t₁ ++ t₂) = scheduled t₁ ++ scheduled t₂ := by
  induction t₁ with
  | nil => rfl
  | cons e t ih => cases e <;> simp [scheduled, ih]

theorem scheduled_nil_of_pruneEffects {t : List Event}
    (h : t.filter isPruneOrCleanupEffect = []) : scheduled t = [] := by
  induction t with
  | nil => rfl
  | cons e t ih =>
    rw [List.filter_eq_nil_iff] at h
    have he := h e (List.mem_cons_self _ _)
    have ht : t.filter isPruneOrCleanupEffect = [] := by
      rw [List.filter_eq_nil_iff]
      exact fun a ha => h a (List.mem_cons_of_mem _ ha)
    cases e <;> first
      | exact absurd rfl he
      | simpa [scheduled] using ih ht

theorem scheduled_reportErr (level : Level) (msg : String) (err : Option String) :
    scheduled (reportErr level msg err) = [] := by
  cases err <;> rfl

theorem Run_prune_panics {b : Backup} {w : World} {backupType path msg : String}
    (hc : (compressDirectory b w w.now.Format backupType).2 = Except.ok path)
    (hu : (uploadToS3 b w w.now.Format backupType path).2 = none)
    (hp : (pruneS3 b w backupType).2 = Ctl.panic msg) :
    Run b w backupType = (tracePruned b w backupType path, Ctl.panic msg) := by
  rcases hc' : compressDirectory b w w.now.Format backupType with ⟨t₁, r⟩
  rw [hc'] at hc
  simp only at hc
  subst hc
  rcases hu' : uploadToS3 b w w.now.Format backupType path with ⟨t₃, r⟩
  rw [hu'] at hu
  simp only at hu
  subst hu
  rcases hp' : pruneS3 b w backupType with ⟨t₅, r⟩
  rw [hp'] at hp
  simp only at hp
  subst hp
  simp only [Run, tracePruned, hc', hu', hp']

theorem scheduled_tracePruned (b : Backup) (w : World) (backupType path : String) :
    scheduled (tracePruned b w backupType path) = scheduled (pruneS3 b w backupType).1 := by
  have h₁ := scheduled_nil_of_pruneEffects
    (pruneEffects_of_later (later_compressDirectory b w w.now.Format backupType))
  have h₂ := scheduled_nil_of_pruneEffects
    (pruneEffects_uploadToS3 b w w.now.Format backupType path)
  simp [tracePruned, scheduled_append, h₁, h₂, scheduled]

/-- The delete requests of a run are those of its call of `pruneS3`, if it
gets that far. -/
theorem scheduled_Run (b : Backup) (w : World) (backupType : String) :
    scheduled (Run b w backupType).1 = [] ∨
      scheduled (Run b w backupType).1 = scheduled (pruneS3 b w backupType).1 := by
  have h₁ := scheduled_nil_of_pruneEffects
    (pruneEffects_of_later (later_compressDirectory b w w.now.Format backupType))
  cases hc : (compressDirectory b w w.now.Format backupType).2 with
  | error err =>
    left
    rw [Run_archive_error hc]
    simp [scheduled_append, h₁, scheduled]
  | ok path =>
    have h₂ := scheduled_nil_of_pruneEffects
      (pruneEffects_uploadToS3 b w w.now.Format backupType path)
    cases hu : (uploadToS3 b w w.now.Format backupType path).2 with
    | some err =>
      left
      rw [Run_upload_error hc hu]
      simp [scheduled_append, h₁, h₂, scheduled]
    | none =>
      right
      cases hp : (pruneS3 b w backupType).2 with
      | exit code => rw [Run_prune_exits hc hu hp]; exact scheduled_tracePruned b w _ _
      | panic msg => rw [Run_prune_panics hc hu hp]; exact scheduled_tracePruned b w _ _
      | ret perr =>
        rw [Run_prune_returns hc hu hp]
        simp [scheduled_append, scheduled_tracePruned, scheduled_reportErr, scheduled,
          removeBackupDirectory, backupComplete, h₁, h₂]


/-! ## The greatest key of a listing -/

theorem Format_congr {t₁ t₂ : Time} (h : t₁.sec = t₂.sec) : t₁.Format = t₂.Format := by
  unfold Time.Format Time.abs
  rw [h]

theorem sec_le_of_not_later {t₁ t₂ : Time} (h : t₁.UnixNano ≤ t₂.UnixNano) :
    t₁.sec ≤ t₂.sec := by
  unfold Time.UnixNano at h
  have := t₂.nsec.isLt
  omega

/-- A key that no listed key exceeds is not among the keys beyond the first
`n ≥ 1` of the descending order. -/
theorem greatest_not_dropped {K : List String} (hK : K.Nodup) {k : String}
    (hmax : ∀ x ∈ K, revLE k x) {n : Nat} (hn : 1 ≤ n) : k ∉ (sortReverse K).drop n := by
  intro hk
  have hp := sortReverse_perm K
  have hnd : (sortReverse K).Nodup := hp.nodup_iff.mpr hK
  have hlen : n < (sortReverse K).length := by
    have := List.length_pos_of_mem hk
    rw [List.length_drop] at this
    omega
  cases hS : sortReverse K with
  | nil => rw [hS] at hlen; simp at hlen
  | cons x xs =>
    have hx : x ∈ (sortReverse K).take n := by
      rw [hS]
      obtain ⟨m, rfl⟩ : ∃ m, n = m + 1 := ⟨n - 1, by omega⟩
      simp
    have hlt := drop_lt_take (sortReverse_sorted K) hnd n hk hx
    have hxK : x ∈ K := hp.subset (by rw [hS]; exact List.mem_cons_self _ _)
    have hle := hmax x hxK
    unfold strLess at hlt
    unfold revLE at hle
    exact absurd hlt (not_lt.mpr hle)

/-! ## The tar entry name and the marker file -/

/-- C6 (what the code does): with the data directory `/data`, the file
`/data/app/data/x.txt`, whose relative path is `app/data/x.txt`, gets the
entry name `appx.txt`: `strings.ReplaceAll` also removes the `/data/` inside
the relative path.  The file `/data/appx.txt` gets the same entry name.
Paths without a second `/data/` keep their relative path. -/
theorem headerName_drops_inner_directory :
    "/data/app/data/x.txt" = exampleBackup.DataDirectory ++ "/" ++ "app/data/x.txt" ∧
    headerName exampleBackup "/data/app/data/x.txt" = "appx.txt" ∧
    headerName exampleBackup "/data/app/data/x.txt" ≠ "app/data/x.txt" ∧
    headerName exampleBackup "/data/appx.txt" = "appx.txt" ∧
    Event.WriteHeader "appx.txt" ∈
      (addFile exampleBackup { path := "/data/app/data/x.txt" }).1 ∧
    headerName exampleBackup "/data/a.txt" = "a.txt" ∧
    headerName exampleBackup "/data/sub/b.txt" = "sub/b.txt" := by
  decide

/-- C8 (what the code does): when `BACKUP_DATE` holds the record of a
"monthly" run and a "daily" run writes its shorter record at offset zero
without truncation, the last two bytes of the old record stay: the first
line is the new record and the last line is `Z`. -/
theorem marker_last_line_is_stale :
    markerAfterWrite (bytes "monthly/2024-01-01T00:00:00Z\n") "2024-01-02T00:00:00Z" "daily" =
      bytes "daily/2024-01-02T00:00:00Z\nZ\n" ∧
    lastLine (markerAfterWrite (bytes "monthly/2024-01-01T00:00:00Z\n")
      "2024-01-02T00:00:00Z" "daily") = some (bytes "Z") ∧
    lastLine (markerAfterWrite (bytes "monthly/2024-01-01T00:00:00Z\n")
      "2024-01-02T00:00:00Z" "daily") ≠ some (bytes "daily/2024-01-02T00:00:00Z") ∧
    firstLine (markerAfterWrite (bytes "monthly/2024-01-01T00:00:00Z\n")
      "2024-01-02T00:00:00Z" "daily") = some (bytes "daily/2024-01-02T00:00:00Z") ∧
    Event.WriteString "daily/2024-01-02T00:00:00Z\n" ∈
      (compressDirectory exampleBackup exampleWorld "2024-01-02T00:00:00Z" "daily").1 := by
  decide


/-! ## The key a run uploads -/

theorem uploadedKeys_append (t₁ t₂ : List Event) :
    uploadedKeys (t₁ ++ t₂) = uploadedKeys t₁ ++ uploadedKeys t₂ := by
  induction t₁ with
  | nil => rfl
  | cons e t ih => cases e <;> simp [uploadedKeys, ih]

theorem uploadedKeys_nil_of_later {t : List Event} (h : t.filter isLaterEffect = []) :
    uploadedKeys t = [] := by
  induction t with
  | nil => rfl
  | cons e t ih =>
    rw [List.filter_eq_nil_iff] at h
    have he := h e (List.mem_cons_self _ _)
    have ht : t.filter isLaterEffect = [] := by
      rw [List.filter_eq_nil_iff]
      exact fun a ha => h a (List.mem_cons_of_mem _ ha)
    cases e <;> first
      | exact absurd rfl he
      | simpa [uploadedKeys] using ih ht

theorem uploadedKeys_closeWarn (what msg : String) (err : Option String) :
    uploadedKeys (closeWarn what msg err) = [] := by
  cases err <;> rfl

theorem uploadedKeys_reportErr (level : Level) (msg : String) (err : Option String) :
    uploadedKeys (reportErr level msg err) = [] := by
  cases err <;> rfl

/-- Once the archive is open, `uploadToS3` hands exactly one key to the
uploader: `S3Path/backupType/now.tar.gz`. -/
theorem uploadedKeys_uploadToS3 (b : Backup) (w : World) (now backupType path : String)
    (ho : w.openErr = none) :
    uploadedKeys (uploadToS3 b w now backupType path).1 =
      [b.S3Path ++ "/" ++ backupType ++ "/" ++ now ++ ".tar.gz"] := by
  unfold uploadToS3
  rw [ho]
  cases w.uploadErr <;>
    simp [uploadedKeys, uploadedKeys_append, uploadedKeys_closeWarn, uploadPath]

theorem openErr_of_uploaded {b : Backup} {w : World} {now backupType path : String}
    (hu : (uploadToS3 b w now backupType path).2 = none) : w.openErr = none := by
  unfold uploadToS3 at hu
  cases ho : w.openErr with
  | none => rfl
  | some err => rw [ho] at hu; simp at hu

theorem uploadedKeys_pruneS3 (b : Backup) (w : World) (backupType : String) :
    uploadedKeys (pruneS3 b w backupType).1 = [] := by
  cases h : w.listObjects b.S3Bucket (b.S3Path ++ "/" ++ backupType) with
  | error err => simp only [pruneS3, getBucketObjects, h]; rfl
  | ok K =>
    rw [pruneS3_listed h]
    split_ifs
    · rfl
    · rfl
    · split <;> rfl

theorem uploadedKeys_tracePruned (b : Backup) (w : World) (backupType path : String) :
    uploadedKeys (tracePruned b w backupType path) =
      uploadedKeys (uploadToS3 b w w.now.Format backupType path).1 := by
  have h₁ := uploadedKeys_nil_of_later (later_compressDirectory b w w.now.Format backupType)
  simp [tracePruned, uploadedKeys_append, h₁, uploadedKeys_pruneS3, uploadedKeys]

/-- A run whose Archive and Upload stages succeed hands exactly one key to
the uploader, `S3Path/backupType/now.tar.gz` with `now` the formatted clock
reading of the run. -/
theorem uploadedKeys_Run {b : Backup} {w : World} {backupType path : String}
    (hc : (compressDirectory b w w.now.Format backupType).2 = Except.ok path)
    (hu : (uploadToS3 b w w.now.Format backupType path).2 = none) :
    uploadedKeys (Run b w backupType).1 =
      [b.S3Path ++ "/" ++ backupType ++ "/" ++ w.now.Format ++ ".tar.gz"] := by
  have hk := uploadedKeys_uploadToS3 b w w.now.Format backupType path (openErr_of_uploaded hu)
  cases hp : (pruneS3 b w backupType).2 with
  | exit code => rw [Run_prune_exits hc hu hp, uploadedKeys_tracePruned, hk]
  | panic msg => rw [Run_prune_panics hc hu hp, uploadedKeys_tracePruned, hk]
  | ret perr =>
    rw [Run_prune_returns hc hu hp]
    have h₁ := uploadedKeys_nil_of_later
      (later_compressDirectory b w w.now.Format backupType)
    simp [uploadedKeys_append, uploadedKeys_tracePruned, uploadedKeys_reportErr, uploadedKeys,
      removeBackupDirectory, backupComplete, hk, h₁, uploadedKeys_pruneS3]

/-- The delete requests of a run whose Archive and Upload stages succeed are
those of its call of `pruneS3`. -/
theorem scheduled_Run_uploaded {b : Backup} {w : World} {backupType path : String}
    (hc : (compressDirectory b w w.now.Format backupType).2 = Except.ok path)
    (hu : (uploadToS3 b w w.now.Format backupType path).2 = none) :
    scheduled (Run b w backupType).1 = scheduled (pruneS3 b w backupType).1 := by
  cases hp : (pruneS3 b w backupType).2 with
  | exit code => rw [Run_prune_exits hc hu hp]; exact scheduled_tracePruned b w _ _
  | panic msg => rw [Run_prune_panics hc hu hp]; exact scheduled_tracePruned b w _ _
  | ret perr =>
    rw [Run_prune_returns hc hu hp]
    have h₁ := scheduled_nil_of_pruneEffects
      (pruneEffects_of_later (later_compressDirectory b w w.now.Format backupType))
    have h₂ := scheduled_nil_of_pruneEffects
      (pruneEffects_uploadToS3 b w w.now.Format backupType path)
    simp [scheduled_append, scheduled_tracePruned, scheduled_reportErr, scheduled,
      removeBackupDirectory, backupComplete, h₁, h₂]


/-! ## The text of a timestamp of the years 0000 to 9999 -/

/-- Within the years 0000 to 9999 the formatted time is the text
`YYYY-MM-DDTHH:MM:SSZ` of its fields. -/
theorem Format_layout {t : Time} (hy : 0 ≤ t.Year ∧ t.Year ≤ 9999) :
    t.Format.toList = layoutText t.Year.toNat t.Month t.Day t.Hour t.Minute t.Second := by
  unfold Time.Year at hy
  unfold Time.Year Time.Month Time.Day Time.Hour Time.Minute Time.Second
  have c : (absDate t.abs).1 = (((absDate t.abs).1.toNat : Nat) : Int) :=
    (Int.toNat_of_nonneg hy.1).symm
  have bm := monthDay_bounds (isLeap (absDate t.abs).1) (absYearDay t.abs).2
    (Nat.lt_succ_of_le (yday_le _))
  have k := absClock_bounds t.abs
  have hM : (absDate t.abs).2.1 < 100 := by rw [absDate_month]; exact bm.1
  have hD : (absDate t.abs).2.2 < 100 := by rw [absDate_day]; omega
  have hY : (absDate t.abs).1.toNat < 10000 := by omega
  have key := formatStamp_digits hY hM hD k.1 k.2.1 k.2.2 []
  rw [← c, List.append_nil] at key
  exact key

theorem appendInt_neg {x : Int} (h : x < 0) (width : Nat) :
    ∃ rest, appendInt x width = '-' :: rest := by
  unfold appendInt
  simp only [h, if_true]
  split_ifs <;> exact ⟨_, rfl⟩

/-- Before the year 0000 the formatted time starts with a minus sign. -/
theorem Format_neg {t : Time} (h : t.Year < 0) : ∃ rest, t.Format.toList = '-' :: rest := by
  unfold Time.Year at h
  obtain ⟨r, hr⟩ := appendInt_neg h 4
  refine ⟨r ++ (['-'] ++ appendInt (absDate t.abs).2.1 2 ++ ['-'] ++
    appendInt (absDate t.abs).2.2 2 ++ ['T'] ++ appendInt (absClock t.abs).1 2 ++ [':'] ++
    appendInt (absClock t.abs).2.1 2 ++ [':'] ++ appendInt (absClock t.abs).2.2 2 ++ ['Z']), ?_⟩
  show formatStamp _ _ _ _ _ _ = _
  unfold formatStamp
  rw [hr]
  simp

theorem minus_lt_digitChar (d : Nat) : '-' < digitChar d := by
  unfold digitChar
  have hd : d % 10 < 10 := Nat.mod_lt _ (by decide)
  generalize d % 10 = i at hd
  interval_cases i <;> decide

/-- From the absolute zero year on the conversion to absolute seconds does
not wrap. -/
theorem abs_of_afterAbsoluteZero {t : Time} (h : t.afterAbsoluteZero) :
    (t.abs : Int) = t.sec + 9223372028715321600 := by
  have hi := t.int64
  unfold Time.afterAbsoluteZero unixToAbsolute at h
  unfold Time.abs unixToAbsolute
  norm_num at h ⊢
  omega

/-- For a run of the years 0000 to 9999, the key of an instant that is not
later (and not before the absolute zero year) does not exceed the key of the
run. -/
theorem uploadPath_le_of_earlier (b : Backup) (backupType : String) {t now : Time}
    (hnow : 0 ≤ now.Year ∧ now.Year ≤ 9999) (hz : t.afterAbsoluteZero)
    (hle : t.UnixNano ≤ now.UnixNano) :
    revLE (uploadPath b now.Format backupType) (uploadPath b t.Format backupType) := by
  rcases lt_or_eq_of_le (sec_le_of_not_later hle) with hlt | heq
  · have e₁ := abs_of_afterAbsoluteZero hz
    obtain ⟨e₂, -, u₂⟩ := abs_of_years hnow.1 hnow.2
    have hy : t.Year ≤ 9999 := (year_le_9999_iff t.abs).mpr (by omega)
    rcases lt_or_ge t.Year 0 with hneg | hpos
    · obtain ⟨rest, hr⟩ := Format_neg hneg
      have hl := Format_layout hnow
      apply le_of_lt
      show (uploadPath b t.Format backupType).toList < (uploadPath b now.Format backupType).toList
      rw [uploadPath_toList, uploadPath_toList, hr, hl]
      exact List.Lex.append_left _ (List.Lex.rel (minus_lt_digitChar _)) _
    · exact (strLess_iff_revLE.mp (uploadPath_lt b backupType ⟨hpos, hy⟩ hnow hlt)).1
  · rw [Format_congr heq]
    exact le_refl _


/-! ## Keys in time order -/

theorem uploadedKeys_uploadToS3_mem {b : Backup} {w : World} {now backupType path k : String}
    (h : k ∈ uploadedKeys (uploadToS3 b w now backupType path).1) :
    k = uploadPath b now backupType := by
  cases ho : w.openErr with
  | none =>
    rw [uploadedKeys_uploadToS3 b w now backupType path ho] at h
    simpa [uploadPath] using h
  | some err =>
    unfold uploadToS3 at h
    rw [ho] at h
    simp [uploadedKeys] at h

/-- C7: for every `S3Path` and backup type and every two runs whose clocks
read UTC instants of the years 0000 to 9999, the second at least one second
after the first: once the archive is open, `uploadToS3` hands the uploader
exactly the key `S3Path/backupType/<stamp>.tar.gz`, the stamp being the text
`YYYY-MM-DDTHH:MM:SSZ` of the instant; the key of the earlier run is
strictly less than the key of the later run; and `pruneS3`, given the two
keys listed in any order, sorts the later key first (it deletes both in the
order later, earlier with a count of 0 and only the earlier with a count of
1).  A run whose Archive and Upload stages succeed uploads that key. -/
theorem uploaded_keys_sortable (b : Backup) (backupType : String) (w₁ w₂ : World)
    (path₁ path₂ : String)
    (ho₁ : w₁.openErr = none) (ho₂ : w₂.openErr = none)
    (hy₁ : 0 ≤ w₁.now.Year ∧ w₁.now.Year ≤ 9999)
    (hy₂ : 0 ≤ w₂.now.Year ∧ w₂.now.Year ≤ 9999)
    (hlater : w₁.now.UnixNano + 1000000000 ≤ w₂.now.UnixNano) :
    uploadedKeys (uploadToS3 b w₁ w₁.now.Format backupType path₁).1 =
      [b.S3Path ++ "/" ++ backupType ++ "/" ++ w₁.now.Format ++ ".tar.gz"] ∧
    uploadedKeys (uploadToS3 b w₂ w₂.now.Format backupType path₂).1 =
      [b.S3Path ++ "/" ++ backupType ++ "/" ++ w₂.now.Format ++ ".tar.gz"] ∧
    w₁.now.Format.toList = layoutText w₁.now.Year.toNat w₁.now.Month w₁.now.Day
      w₁.now.Hour w₁.now.Minute w₁.now.Second ∧
    w₂.now.Format.toList = layoutText w₂.now.Year.toNat w₂.now.Month w₂.now.Day
      w₂.now.Hour w₂.now.Minute w₂.now.Second ∧
    (∀ k₁ ∈ uploadedKeys (uploadToS3 b w₁ w₁.now.Format backupType path₁).1,
      ∀ k₂ ∈ uploadedKeys (uploadToS3 b w₂ w₂.now.Format backupType path₂).1,
      strLess k₁ k₂ ∧
      ∀ (w : World) (K : List String), K.Perm [k₁, k₂] →
        w.listObjects b.S3Bucket (b.S3Path ++ "/" ++ backupType) = Except.ok K →
        (numberToKeep b backupType = 0 →
          scheduled (pruneS3 b w backupType).1 = [k₂, k₁]) ∧
        (numberToKeep b backupType = 1 →
          scheduled (pruneS3 b w backupType).1 = [k₁])) ∧
    (∀ p, (compressDirectory b w₁ w₁.now.Format backupType).2 = Except.ok p →
      (uploadToS3 b w₁ w₁.now.Format backupType p).2 = none →
      uploadedKeys (Run b w₁ backupType).1 =
        [b.S3Path ++ "/" ++ backupType ++ "/" ++ w₁.now.Format ++ ".tar.gz"]) ∧
    (∀ p, (compressDirectory b w₂ w₂.now.Format backupType).2 = Except.ok p →
      (uploadToS3 b w₂ w₂.now.Format backupType p).2 = none →
      uploadedKeys (Run b w₂ backupType).1 =
        [b.S3Path ++ "/" ++ backupType ++ "/" ++ w₂.now.Format ++ ".tar.gz"]) := by
  refine ⟨uploadedKeys_uploadToS3 b w₁ _ _ _ ho₁, uploadedKeys_uploadToS3 b w₂ _ _ _ ho₂,
    Format_layout hy₁, Format_layout hy₂, ?_, fun p hc hu => uploadedKeys_Run hc hu,
    fun p hc hu => uploadedKeys_Run hc hu⟩
  intro k₁ h₁ k₂ h₂
  rw [uploadedKeys_uploadToS3_mem h₁, uploadedKeys_uploadToS3_mem h₂]
  have hlt := uploadPath_lt b backupType hy₁ hy₂ (sec_lt_of_second_apart hlater)
  refine ⟨hlt, ?_⟩
  intro w K hK hlist
  have hs : List.Sorted revLE [uploadPath b w₂.now.Format backupType,
      uploadPath b w₁.now.Format backupType] := by
    simp only [List.Sorted, List.pairwise_cons, List.mem_singleton, forall_eq,
      List.not_mem_nil, IsEmpty.forall_iff, implies_true, List.Pairwise.nil, and_true]
    exact (strLess_iff_revLE.mp hlt).1
  have hsort : sortReverse K = [uploadPath b w₂.now.Format backupType,
      uploadPath b w₁.now.Format backupType] :=
    (sortReverse_unique ((List.Perm.swap _ _ []).trans hK.symm) hs).symm
  constructor
  · intro h0
    rw [(pruneS3_scheduled hlist (by omega)).1, hsort, h0]
    rfl
  · intro h1
    rw [(pruneS3_scheduled hlist (by omega)).1, hsort, h1]
    rfl

set_option maxRecDepth 100000 in
/-- Witness for C7: the runs at 2023-11-14T22:13:19Z and 2023-11-14T22:13:20Z,
and a prune that keeps one of their two keys. -/
theorem uploaded_keys_sortable_witness :
    uploadedKeys (Run exampleBackup (atTime exampleWorld secondBefore) "daily").1 =
      ["backups/daily/2023-11-14T22:13:19Z.tar.gz"] ∧
    uploadedKeys (Run exampleBackup exampleWorld "daily").1 =
      ["backups/daily/2023-11-14T22:13:20Z.tar.gz"] ∧
    strLess "backups/daily/2023-11-14T22:13:19Z.tar.gz"
      "backups/daily/2023-11-14T22:13:20Z.tar.gz" ∧
    scheduled (pruneS3 keepOneBackup twoKeysWorld "daily").1 =
      ["backups/daily/2023-11-14T22:13:19Z.tar.gz"] :=
  ⟨((uploaded_keys_sortable exampleBackup "daily" (atTime exampleWorld secondBefore)
      exampleWorld "/tmp/backups/backup123.tar.gz" "/tmp/backups/backup123.tar.gz" rfl rfl
      (by decide) (by decide) (by decide)).2.2.2.2.2.1 _ rfl rfl).trans (by decide),
    ((uploaded_keys_sortable exampleBackup "daily" (atTime exampleWorld secondBefore)
      exampleWorld "/tmp/backups/backup123.tar.gz" "/tmp/backups/backup123.tar.gz" rfl rfl
      (by decide) (by decide) (by decide)).2.2.2.2.2.2 _ rfl rfl).trans (by decide),
    ((uploaded_keys_sortable keepOneBackup "daily" (atTime exampleWorld secondBefore)
      exampleWorld "/tmp/backups/backup123.tar.gz" "/tmp/backups/backup123.tar.gz" rfl rfl
      (by decide) (by decide) (by decide)).2.2.2.2.1
      "backups/daily/2023-11-14T22:13:19Z.tar.gz" (by decide)
      "backups/daily/2023-11-14T22:13:20Z.tar.gz" (by decide)).1,
    (((uploaded_keys_sortable keepOneBackup "daily" (atTime exampleWorld secondBefore)
      exampleWorld "/tmp/backups/backup123.tar.gz" "/tmp/backups/backup123.tar.gz" rfl rfl
      (by decide) (by decide) (by decide)).2.2.2.2.1
      "backups/daily/2023-11-14T22:13:19Z.tar.gz" (by decide)
      "backups/daily/2023-11-14T22:13:20Z.tar.gz" (by decide)).2 twoKeysWorld
      ["backups/daily/2023-11-14T22:13:19Z.tar.gz",
        "backups/daily/2023-11-14T22:13:20Z.tar.gz"]
      (List.Perm.refl _) (congrArg Except.ok (by decide))).2 rfl⟩


/-! ## The key of the run is kept -/

set_option maxRecDepth 100000 in
/-- C10 as stated fails, in three runs that keep one daily backup, each with
a listing of two distinct keys built by `uploadToS3`, the key the run
uploads and a key of an instant before the run.  At 10000-01-01T00:00:00Z the
five digit year sorts below the key of 9999; at -0001-01-01T00:00:00Z the key
of -0002 sorts above; at 2023-11-14T22:13:20Z the key of the least `int64`
instant, which Go formats with the year 292277026596, sorts above.  Each run
asks to delete the key it uploaded. -/
theorem fresh_key_pruned_in_year_10000 :
    (1 ≤ numberToKeep keepOneBackup "daily" ∧
      year10000World.listObjects keepOneBackup.S3Bucket
        (keepOneBackup.S3Path ++ "/" ++ "daily") = Except.ok keysAround10000 ∧
      keysAround10000.Nodup ∧
      (∀ k ∈ keysAround10000, ∃ (w' : World) (p : String),
        w'.now.UnixNano ≤ year10000World.now.UnixNano ∧
        k ∈ uploadedKeys (uploadToS3 keepOneBackup w' w'.now.Format "daily" p).1) ∧
      uploadedKeys (Run keepOneBackup year10000World "daily").1 =
        ["backups/daily/10000-01-01T00:00:00Z.tar.gz"] ∧
      "backups/daily/10000-01-01T00:00:00Z.tar.gz" ∈ keysAround10000 ∧
      scheduled (pruneS3 keepOneBackup year10000World "daily").1 =
        ["backups/daily/10000-01-01T00:00:00Z.tar.gz"] ∧
      scheduled (Run keepOneBackup year10000World "daily").1 =
        ["backups/daily/10000-01-01T00:00:00Z.tar.gz"]) ∧
    (yearMinus1World.listObjects keepOneBackup.S3Bucket
        (keepOneBackup.S3Path ++ "/" ++ "daily") = Except.ok
          ["backups/daily/-0002-12-31T23:59:59Z.tar.gz",
            "backups/daily/-0001-01-01T00:00:00Z.tar.gz"] ∧
      ["backups/daily/-0002-12-31T23:59:59Z.tar.gz",
        "backups/daily/-0001-01-01T00:00:00Z.tar.gz"].Nodup ∧
      (∀ k ∈ ["backups/daily/-0002-12-31T23:59:59Z.tar.gz",
          "backups/daily/-0001-01-01T00:00:00Z.tar.gz"], ∃ (w' : World) (p : String),
        w'.now.UnixNano ≤ yearMinus1World.now.UnixNano ∧
        k ∈ uploadedKeys (uploadToS3 keepOneBackup w' w'.now.Format "daily" p).1) ∧
      uploadedKeys (Run keepOneBackup yearMinus1World "daily").1 =
        ["backups/daily/-0001-01-01T00:00:00Z.tar.gz"] ∧
      scheduled (Run keepOneBackup yearMinus1World "daily").1 =
        ["backups/daily/-0001-01-01T00:00:00Z.tar.gz"]) ∧
    (wrappedKeyWorld.listObjects keepOneBackup.S3Bucket
        (keepOneBackup.S3Path ++ "/" ++ "daily") = Except.ok
          ["backups/daily/292277026596-12-04T15:30:08Z.tar.gz",
            "backups/daily/2023-11-14T22:13:20Z.tar.gz"] ∧
      ["backups/daily/292277026596-12-04T15:30:08Z.tar.gz",
        "backups/daily/2023-11-14T22:13:20Z.tar.gz"].Nodup ∧
      (∀ k ∈ ["backups/daily/292277026596-12-04T15:30:08Z.tar.gz",
          "backups/daily/2023-11-14T22:13:20Z.tar.gz"], ∃ (w' : World) (p : String),
        w'.now.UnixNano ≤ wrappedKeyWorld.now.UnixNano ∧
        k ∈ uploadedKeys (uploadToS3 keepOneBackup w' w'.now.Format "daily" p).1) ∧
      0 ≤ wrappedKeyWorld.now.Year ∧ wrappedKeyWorld.now.Year ≤ 9999 ∧
      uploadedKeys (Run keepOneBackup wrappedKeyWorld "daily").1 =
        ["backups/daily/2023-11-14T22:13:20Z.tar.gz"] ∧
      scheduled (Run keepOneBackup wrappedKeyWorld "daily").1 =
        ["backups/daily/2023-11-14T22:13:20Z.tar.gz"]) := by
  refine ⟨⟨by decide, rfl, by decide, ?_, by decide, by decide, by decide, by decide⟩,
    ⟨rfl, by decide, ?_, by decide, by decide⟩,
    ⟨rfl, by decide, ?_, by decide, by decide, by decide, by decide⟩⟩
  · intro k hk
    simp only [keysAround10000, List.mem_cons, List.mem_singleton, List.not_mem_nil,
      or_false] at hk
    rcases hk with rfl | rfl
    · exact ⟨atTime exampleWorld lastSecondOf9999, "a.tar.gz", by decide, by decide⟩
    · exact ⟨atTime exampleWorld firstSecondOf10000, "a.tar.gz", by decide, by decide⟩
  · intro k hk
    simp only [List.mem_cons, List.mem_singleton, List.not_mem_nil, or_false] at hk
    rcases hk with rfl | rfl
    · exact ⟨atTime exampleWorld lastSecondOfMinus2, "a.tar.gz", by decide, by decide⟩
    · exact ⟨atTime exampleWorld firstSecondOfMinus1, "a.tar.gz", by decide, by decide⟩
  · intro k hk
    simp only [List.mem_cons, List.mem_singleton, List.not_mem_nil, or_false] at hk
    rcases hk with rfl | rfl
    · exact ⟨atTime exampleWorld leastInstant, "a.tar.gz", by decide, by decide⟩
    · exact ⟨exampleWorld, "a.tar.gz", by decide, by decide⟩

/-- C10 (amended): for every run whose Archive and Upload stages succeed,
whose clock reads an instant of the years 0000 to 9999 and whose backup type
has a retention count `N ≥ 1`: if the keys of the listing are distinct, each
was built by `uploadToS3` with the same `S3Path` and backup type in a run
whose clock read an instant no later than this run's (and not before the
absolute zero year of package `time`), and the listing holds the key
uploaded in this run, then the run uploads exactly the key
`S3Path/backupType/<stamp>.tar.gz` and that key is in no delete request of
the run, nor in the delete request of its `pruneS3`. -/
theorem fresh_key_not_pruned (b : Backup) (w : World) (backupType path : String)
    (K : List String)
    (hc : (compressDirectory b w w.now.Format backupType).2 = Except.ok path)
    (hu : (uploadToS3 b w w.now.Format backupType path).2 = none)
    (hN : 1 ≤ numberToKeep b backupType)
    (hlist : w.listObjects b.S3Bucket (b.S3Path ++ "/" ++ backupType) = Except.ok K)
    (hK : K.Nodup)
    (hnow : 0 ≤ w.now.Year ∧ w.now.Year ≤ 9999)
    (hbuilt : ∀ k ∈ K, ∃ (w' : World) (p : String), w'.now.afterAbsoluteZero ∧
      w'.now.UnixNano ≤ w.now.UnixNano ∧
      k ∈ uploadedKeys (uploadToS3 b w' w'.now.Format backupType p).1)
    (_hfresh : ∀ k ∈ uploadedKeys (Run b w backupType).1, k ∈ K) :
    uploadedKeys (Run b w backupType).1 =
      [b.S3Path ++ "/" ++ backupType ++ "/" ++ w.now.Format ++ ".tar.gz"] ∧
    ∀ k ∈ uploadedKeys (Run b w backupType).1,
      k ∉ scheduled (Run b w backupType).1 ∧ k ∉ scheduled (pruneS3 b w backupType).1 := by
  have hup := uploadedKeys_Run hc hu
  refine ⟨hup, ?_⟩
  intro k hk
  rw [hup, List.mem_singleton] at hk
  have hk' : k = uploadPath b w.now.Format backupType := by rw [hk]; rfl
  have hmax : ∀ x ∈ K, revLE (uploadPath b w.now.Format backupType) x := by
    intro x hx
    obtain ⟨w', p, hz, hle, hmem⟩ := hbuilt x hx
    rw [uploadedKeys_uploadToS3_mem hmem]
    exact uploadPath_le_of_earlier b backupType hnow hz hle
  have hprune : k ∉ scheduled (pruneS3 b w backupType).1 := by
    rw [(pruneS3_scheduled hlist (by omega)).1, hk']
    exact greatest_not_dropped hK hmax (by omega)
  rw [scheduled_Run_uploaded hc hu]
  exact ⟨hprune, hprune⟩

set_option maxRecDepth 100000 in
/-- Witness for C10: the run at 2023-11-14T22:13:20Z that keeps one daily
backup, with a key of the year -0002 in the listing: the run deletes the old
key and keeps its own. -/
theorem fresh_key_not_pruned_witness :
    uploadedKeys (Run keepOneBackup oldKeyWorld "daily").1 =
      ["backups/daily/2023-11-14T22:13:20Z.tar.gz"] ∧
    scheduled (Run keepOneBackup oldKeyWorld "daily").1 =
      ["backups/daily/-0002-12-31T23:59:59Z.tar.gz"] ∧
    "backups/daily/2023-11-14T22:13:20Z.tar.gz" ∉
      scheduled (Run keepOneBackup oldKeyWorld "daily").1 :=
  ⟨by decide, by decide,
    ((fresh_key_not_pruned keepOneBackup oldKeyWorld "daily" "/tmp/backups/backup123.tar.gz"
      ["backups/daily/-0002-12-31T23:59:59Z.tar.gz",
        "backups/daily/2023-11-14T22:13:20Z.tar.gz"]
      rfl rfl (by decide) rfl (by decide) (by decide)
      (fun k hk => by
        simp only [List.mem_cons, List.mem_singleton, List.not_mem_nil, or_false] at hk
        rcases hk with rfl | rfl
        · exact ⟨atTime exampleWorld lastSecondOfMinus2, "a.tar.gz", by decide, by decide,
            by decide⟩
        · exact ⟨exampleWorld, "a.tar.gz", by decide, by decide, by decide⟩)
      (by decide)).2 "backups/daily/2023-11-14T22:13:20Z.tar.gz" (by decide)).1⟩

end S3Backup
